import Mathlib

/-!
Verification of the FlagKit Go SDK core against its specification.

This file gives a shallow embedding, in Lean 4, of the parts of the SDK
that the checked claims are about: the flag cache, the client evaluation
path, the circuit breaker, the HTTP request pipeline (retry loop, error
classification, key rotation), the event write-ahead log replay, the
bootstrap-signature verifier with canonical JSON, the polling backoff,
and the encrypted cache storage wrapper.

Modelling conventions:
- `time.Time` / `time.Duration` values are `Int` (an abstract tick count;
  the unit is irrelevant to every property proved here, and is noted at
  each definition where a concrete unit matters).
- Go maps are association lists that keep insertion order.  Go map
  iteration order is unspecified, so any deterministic order is a sound
  refinement of the source; where a property could depend on iteration
  order this is noted at the definition.
- Go's dynamically typed `any` flag values are the inductive `GoVal`.
  Numbers are modelled as integers (`Int`): every number that the SDK's
  own tests and bootstrap paths exercise is an integral `float64`, which
  Go renders exactly like an integer; non-integral floating-point values
  are outside the modelled domain.
- Cryptographic primitives that live in the Go standard library
  (HMAC-SHA256, AES-GCM) are taken as parameters of the definitions that
  use them; theorems quantify over them.  Everything written in the
  repository itself (control flow, comparisons, canonicalisation) is
  translated directly.
-/

namespace FlagKit

/-- Dynamic Go values (`any`) as used for flag values, bootstrap maps and
JSON objects.  Numbers are modelled as integers; see the file header. -/
inductive GoVal where
  | vNull : GoVal
  | vBool (b : Bool) : GoVal
  | vStr (s : String) : GoVal
  | vNum (i : Int) : GoVal
  | vArr (elems : List GoVal) : GoVal
  | vJson (fields : List (String × GoVal)) : GoVal

/-- `internal/types.FlagState`: a single flag value snapshot.  `FlagType`
is a string type in Go (`"boolean"`, `"string"`, `"number"`, `"json"`). -/
structure FlagState where
  key : String
  value : GoVal
  enabled : Bool
  version : Int
  flagType : String
  lastModified : String

/-- `core.CacheEntry`: a cached flag plus bookkeeping timestamps. -/
structure CacheEntry where
  flag : FlagState
  fetchedAt : Int
  expiresAt : Int

/-- `core.Cache`: entries are an association list keeping insertion
order (the Go original is `map[string]*CacheEntry`). -/
structure Cache where
  entries : List (String × CacheEntry)
  ttl : Int
  maxSize : Nat

/-- Association-list lookup mirroring Go's `m[key]` read. -/
def lookupKey {α : Type} : List (String × α) → String → Option α
  | [], _ => none
  | (k', v) :: rest, k => if k' = k then some v else lookupKey rest k

/-- Association-list write mirroring Go's `m[key] = v`: replaces the
existing binding in place, or appends a new one. -/
def insertKey {α : Type} : List (String × α) → String → α → List (String × α)
  | [], k, v => [(k, v)]
  | (k', v') :: rest, k, v =>
      if k' = k then (k, v) :: rest else (k', v') :: insertKey rest k v

/-- Association-list delete mirroring Go's `delete(m, key)`. -/
def removeKey {α : Type} : List (String × α) → String → List (String × α)
  | [], _ => []
  | (k', v') :: rest, k => if k' = k then rest else (k', v') :: removeKey rest k

/-- `Cache.Get`: returns the flag only when present and not expired.
Go tests expiry with `time.Now().After(entry.ExpiresAt)`, i.e. the entry
is served exactly while `now ≤ expiresAt`. -/
def Cache.get (c : Cache) (now : Int) (key : String) : Option FlagState :=
  match lookupKey c.entries key with
  | none => none
  | some entry => if now > entry.expiresAt then none else some entry.flag

/-- `Cache.GetStale`: returns any present entry, ignoring expiry. -/
def Cache.getStale (c : Cache) (key : String) : Option FlagState :=
  match lookupKey c.entries key with
  | none => none
  | some entry => some entry.flag

/-- `Cache.IsStale`: true only when the entry exists and is expired
(`time.Now().After(entry.ExpiresAt)`). -/
def Cache.isStale (c : Cache) (now : Int) (key : String) : Bool :=
  match lookupKey c.entries key with
  | none => false
  | some entry => now > entry.expiresAt

/-- `Cache.Has`: presence test, stale entries included. -/
def Cache.has (c : Cache) (key : String) : Bool :=
  (lookupKey c.entries key).isSome

/-- `Cache.Size`. -/
def Cache.size (c : Cache) : Nat := c.entries.length

/-- The scanning loop inside `Cache.evictOldest`: walks the entries
tracking the key with the strictly smallest `FetchedAt` seen so far
(`first || entry.FetchedAt.Before(oldestTime)` in Go).  The accumulator
is `none` while `first` is true. -/
def scanOldest : Option (String × Int) → List (String × CacheEntry) → Option (String × Int)
  | acc, [] => acc
  | none, kv :: rest => scanOldest (some (kv.1, kv.2.fetchedAt)) rest
  | some (ok, ot), kv :: rest =>
      if kv.2.fetchedAt < ot then scanOldest (some (kv.1, kv.2.fetchedAt)) rest
      else scanOldest (some (ok, ot)) rest

/-- `Cache.evictOldest`: removes the entry with the oldest `FetchedAt`,
except that the Go code guards the delete with `oldestKey != ""`, so an
oldest entry whose key is the empty string is never removed. -/
def Cache.evictOldest (c : Cache) : Cache :=
  match scanOldest none c.entries with
  | none => c
  | some (oldestKey, _) =>
      if oldestKey ≠ "" then { c with entries := removeKey c.entries oldestKey } else c

/-- `Cache.Set`: evicts the oldest entry first when the cache is at
capacity and the key is new, then inserts with `expiresAt = now + ttl`
(`ttl?` models the optional variadic TTL argument). -/
def Cache.set (c : Cache) (now : Int) (key : String) (flag : FlagState)
    (ttl? : Option Int) : Cache :=
  let c1 :=
    if c.entries.length ≥ c.maxSize ∧ (lookupKey c.entries key).isNone
    then c.evictOldest else c
  let cacheTTL := ttl?.getD c1.ttl
  let entry : CacheEntry := { flag := flag, fetchedAt := now, expiresAt := now + cacheTTL }
  { c1 with entries := insertKey c1.entries key entry }

/-- `Cache.Delete`. -/
def Cache.delete (c : Cache) (key : String) : Cache :=
  { c with entries := removeKey c.entries key }

/-- `Cache.Clear`. -/
def Cache.clear (c : Cache) : Cache := { c with entries := [] }

/-- `Cache.SetMany`: per-entry `Set`, in batch order. -/
def Cache.setMany (c : Cache) (now : Int) (flags : List FlagState)
    (ttl? : Option Int) : Cache :=
  flags.foldl (fun acc f => acc.set now f.key f ttl?) c

/-- One state-mutating cache operation, for stating invariants over
arbitrary operation sequences. -/
inductive CacheOp where
  | setOp (now : Int) (key : String) (flag : FlagState) (ttl? : Option Int) : CacheOp
  | deleteOp (key : String) : CacheOp
  | clearOp : CacheOp

/-- Interpretation of one cache operation. -/
def Cache.applyOp (c : Cache) : CacheOp → Cache
  | .setOp now key flag ttl? => c.set now key flag ttl?
  | .deleteOp key => c.delete key
  | .clearOp => c.clear

/-- Interpretation of a sequence of cache operations. -/
def Cache.applyOps (c : Cache) (ops : List CacheOp) : Cache :=
  ops.foldl Cache.applyOp c

/-- A fresh cache as built by `NewCache`. -/
def Cache.new (ttl : Int) (maxSize : Nat) : Cache :=
  { entries := [], ttl := ttl, maxSize := maxSize }

/-- `types.ReasonCached`. -/
def ReasonCached : String := "CACHED"

/-- `types.ReasonDefault`. -/
def ReasonDefault : String := "DEFAULT"

/-- `types.ReasonFlagNotFound`. -/
def ReasonFlagNotFound : String := "FLAG_NOT_FOUND"

/-- `types.ReasonError`. -/
def ReasonError : String := "ERROR"

/-- `types.ReasonStaleCache`. -/
def ReasonStaleCache : String := "STALE_CACHE"

/-- `types.ReasonBootstrap`. -/
def ReasonBootstrap : String := "BOOTSTRAP"

/-- `types.FlagTypeBoolean`. -/
def FlagTypeBoolean : String := "boolean"

/-- `types.FlagTypeString`. -/
def FlagTypeString : String := "string"

/-- `types.FlagTypeNumber`. -/
def FlagTypeNumber : String := "number"

/-- `types.EvaluationResult` (the wall-clock `Timestamp` is the `now`
passed to the evaluation). -/
structure EvaluationResult where
  flagKey : String
  value : GoVal
  enabled : Bool
  reason : String
  version : Int
  timestamp : Int

/-- `client.createDefaultResult`: a result carrying the caller's default,
`Enabled = false` and `Version = 0`. -/
def createDefaultResult (now : Int) (key : String) (defaultValue : GoVal)
    (reason : String) : EvaluationResult :=
  { flagKey := key, value := defaultValue, enabled := false, reason := reason,
    version := 0, timestamp := now }

/-- The part of `client.Client` that evaluation reads: the flag cache and
the legacy bootstrap map from the options. -/
structure ClientState where
  cache : Cache
  bootstrap : List (String × GoVal)

/-- `Client.evaluate`: the read path.  Validation failure, type mismatch,
and flag-absence all produce a default-carrying result; the client state
is returned unchanged (the Go method performs no writes).  The optional
evaluation jitter only sleeps and is invisible to the result. -/
def Client.evaluate (st : ClientState) (now : Int) (key : String)
    (defaultValue : GoVal) (expectedType : String) :
    EvaluationResult × ClientState :=
  if key = "" then (createDefaultResult now key defaultValue ReasonDefault, st)
  else
    match st.cache.get now key with
    | some cached =>
        if expectedType ≠ "" ∧ cached.flagType ≠ expectedType then
          (createDefaultResult now key defaultValue ReasonError, st)
        else
          ({ flagKey := key, value := cached.value, enabled := cached.enabled,
             reason := ReasonCached, version := cached.version,
             timestamp := now }, st)
    | none =>
      match st.cache.getStale key with
      | some stale =>
          ({ flagKey := key, value := stale.value, enabled := stale.enabled,
             reason := ReasonStaleCache, version := stale.version,
             timestamp := now }, st)
      | none =>
        match lookupKey st.bootstrap key with
        | some value => (createDefaultResult now key value ReasonBootstrap, st)
        | none => (createDefaultResult now key defaultValue ReasonFlagNotFound, st)

/-- `EvaluationResult.BoolValue`: the dynamic type assertion of Go. -/
def EvaluationResult.boolValue (r : EvaluationResult) : Bool :=
  match r.value with
  | .vBool b => b
  | _ => false

/-- `EvaluationResult.StringValue`. -/
def EvaluationResult.stringValue (r : EvaluationResult) : String :=
  match r.value with
  | .vStr s => s
  | _ => ""

/-- `EvaluationResult.Float64Value` (all Go numeric widths collapse to
the single modelled number type). -/
def EvaluationResult.float64Value (r : EvaluationResult) : Int :=
  match r.value with
  | .vNum i => i
  | _ => 0

/-- `Client.GetBooleanValue`. -/
def Client.getBooleanValue (st : ClientState) (now : Int) (key : String)
    (defaultValue : Bool) : Bool :=
  ((Client.evaluate st now key (.vBool defaultValue) FlagTypeBoolean).1).boolValue

/-- `Client.GetStringValue`. -/
def Client.getStringValue (st : ClientState) (now : Int) (key : String)
    (defaultValue : String) : String :=
  ((Client.evaluate st now key (.vStr defaultValue) FlagTypeString).1).stringValue

/-- `Client.GetNumberValue`. -/
def Client.getNumberValue (st : ClientState) (now : Int) (key : String)
    (defaultValue : Int) : Int :=
  ((Client.evaluate st now key (.vNum defaultValue) FlagTypeNumber).1).float64Value

/-- `internal.CircuitState`. -/
inductive CircuitState where
  | circuitClosed : CircuitState
  | circuitOpened : CircuitState
  | circuitHalfOpen : CircuitState
  deriving Repr, DecidableEq

/-- `internal.CircuitBreakerConfig`.  All Go fields are `int` except the
`time.Duration` reset timeout. -/
structure CircuitBreakerConfig where
  failureThreshold : Int
  successThreshold : Int
  resetTimeout : Int
  halfOpenMaxAllowed : Int
  deriving Repr, DecidableEq

/-- `internal.CircuitBreaker` mutable state. -/
structure CircuitBreaker where
  config : CircuitBreakerConfig
  state : CircuitState
  failures : Int
  successes : Int
  lastFailureTime : Int
  halfOpenAllowed : Int
  halfOpenInProgress : Int
  deriving Repr, DecidableEq

/-- `NewCircuitBreaker`: fresh closed breaker, all counters zero. -/
def CircuitBreaker.new (config : CircuitBreakerConfig) : CircuitBreaker :=
  { config := config, state := .circuitClosed, failures := 0, successes := 0,
    lastFailureTime := 0, halfOpenAllowed := 0, halfOpenInProgress := 0 }

/-- `CircuitBreaker.transitionTo`: sets the state and resets both
counters. -/
def CircuitBreaker.transitionTo (cb : CircuitBreaker) (newState : CircuitState) :
    CircuitBreaker :=
  { cb with state := newState, failures := 0, successes := 0 }

/-- The shared HALF_OPEN admission step (the `CircuitHalfOpen` case of
the `Allow` switch, also reached from `CircuitOpen` via `fallthrough`). -/
def CircuitBreaker.halfOpenAdmit (cb : CircuitBreaker) : Bool × CircuitBreaker :=
  if cb.halfOpenInProgress < cb.halfOpenAllowed then
    (true, { cb with halfOpenInProgress := cb.halfOpenInProgress + 1 })
  else (false, cb)

/-- `CircuitBreaker.Allow`: gate consulted before a call.  `time.Since`
is `now - lastFailureTime`. -/
def CircuitBreaker.allow (cb : CircuitBreaker) (now : Int) : Bool × CircuitBreaker :=
  match cb.state with
  | .circuitClosed => (true, cb)
  | .circuitOpened =>
      if now - cb.lastFailureTime ≥ cb.config.resetTimeout then
        let cb1 := cb.transitionTo .circuitHalfOpen
        let cb2 := { cb1 with halfOpenAllowed := cb.config.halfOpenMaxAllowed,
                              halfOpenInProgress := 0 }
        cb2.halfOpenAdmit
      else (false, cb)
  | .circuitHalfOpen => cb.halfOpenAdmit

/-- `CircuitBreaker.RecordSuccess`. -/
def CircuitBreaker.recordSuccess (cb : CircuitBreaker) : CircuitBreaker :=
  match cb.state with
  | .circuitHalfOpen =>
      let cb1 := { cb with successes := cb.successes + 1,
                           halfOpenInProgress := cb.halfOpenInProgress - 1 }
      if cb1.successes ≥ cb1.config.successThreshold then
        cb1.transitionTo .circuitClosed
      else cb1
  | .circuitClosed => { cb with failures := 0 }
  | .circuitOpened => cb

/-- `CircuitBreaker.RecordFailure`: always refreshes `lastFailureTime`
first, then transitions according to the current state. -/
def CircuitBreaker.recordFailure (cb : CircuitBreaker) (now : Int) : CircuitBreaker :=
  let cb0 := { cb with lastFailureTime := now }
  match cb0.state with
  | .circuitClosed =>
      let cb1 := { cb0 with failures := cb0.failures + 1 }
      if cb1.failures ≥ cb1.config.failureThreshold then
        cb1.transitionTo .circuitOpened
      else cb1
  | .circuitHalfOpen =>
      ({ cb0 with halfOpenInProgress := cb0.halfOpenInProgress - 1 }).transitionTo
        .circuitOpened
  | .circuitOpened => cb0

/-- A run of consecutive `RecordFailure` calls at the given times. -/
def CircuitBreaker.recordFailures (cb : CircuitBreaker) (times : List Int) :
    CircuitBreaker :=
  times.foldl CircuitBreaker.recordFailure cb

/-- A run of consecutive `RecordSuccess` calls. -/
def CircuitBreaker.recordSuccesses (cb : CircuitBreaker) (n : Nat) : CircuitBreaker :=
  Nat.rec cb (fun _ acc => acc.recordSuccess) n

/-- `errors.ErrAuthUnauthorized`. -/
def ErrAuthUnauthorized : String := "AUTH_UNAUTHORIZED"

/-- `errors.ErrAuthInvalidKey`. -/
def ErrAuthInvalidKey : String := "AUTH_INVALID_KEY"

/-- `errors.ErrNetworkError`. -/
def ErrNetworkError : String := "NETWORK_ERROR"

/-- `errors.ErrNetworkTimeout`. -/
def ErrNetworkTimeout : String := "NETWORK_TIMEOUT"

/-- `errors.ErrNetworkRetryLimit`. -/
def ErrNetworkRetryLimit : String := "NETWORK_RETRY_LIMIT"

/-- `errors.ErrEvalFlagNotFound`. -/
def ErrEvalFlagNotFound : String := "EVAL_FLAG_NOT_FOUND"

/-- `errors.ErrCircuitOpen`. -/
def ErrCircuitOpen : String := "CIRCUIT_OPEN"

/-- `errors.ErrSecuritySignatureInvalid`. -/
def ErrSecuritySignatureInvalid : String := "SECURITY_SIGNATURE_INVALID"

/-- `errors.ErrSecurityDecryptionFailed`. -/
def ErrSecurityDecryptionFailed : String := "SECURITY_DECRYPTION_FAILED"

/-- `errors.FlagKitError`: the stable code, the human message, and the
optional cause chain (the `Recoverable` flag and details map carried by
the Go struct play no role in the claims and are omitted). -/
inductive FlagKitError where
  | mk (code : String) (message : String) (cause : Option FlagKitError) : FlagKitError

/-- The `Code` field. -/
def FlagKitError.code : FlagKitError → String
  | .mk c _ _ => c

/-- The `Message` field. -/
def FlagKitError.message : FlagKitError → String
  | .mk _ m _ => m

/-- The wrapped cause. -/
def FlagKitError.cause : FlagKitError → Option FlagKitError
  | .mk _ _ c => c

/-- The Go standard library's `http.StatusText`, to the extent the
pipeline consults it (only when an error response body is empty). -/
def httpStatusText (statusCode : Int) : String :=
  if statusCode = 401 then "Unauthorized"
  else if statusCode = 403 then "Forbidden"
  else if statusCode = 404 then "Not Found"
  else if statusCode = 429 then "Too Many Requests"
  else ""

/-- `HTTPClient.handleErrorResponse`: maps HTTP error statuses to error
codes.  401 → unauthorized, 403 → invalid key, 404 → flag not found,
429 → retry limit, 503/502/504 → network error, anything else → generic
network error with an `HTTP <code>` message. -/
def handleErrorResponse (statusCode : Int) (body : String) : FlagKitError :=
  let message := if body = "" then httpStatusText statusCode else body
  if statusCode = 401 then .mk ErrAuthUnauthorized message none
  else if statusCode = 403 then .mk ErrAuthInvalidKey message none
  else if statusCode = 404 then .mk ErrEvalFlagNotFound message none
  else if statusCode = 429 then .mk ErrNetworkRetryLimit message none
  else if statusCode = 503 ∨ statusCode = 502 ∨ statusCode = 504 then
    .mk ErrNetworkError message none
  else .mk ErrNetworkError ("HTTP " ++ toString statusCode ++ ": " ++ message) none

/-- `HTTPClient.isRetryable`: only the `NETWORK_ERROR` and
`NETWORK_TIMEOUT` codes are retried (every error the retry loop sees is
a `FlagKitError`, since `doRequest` wraps all transport failures). -/
def isRetryable (e : FlagKitError) : Bool :=
  if e.code = ErrNetworkError then true
  else if e.code = ErrNetworkTimeout then true
  else false

/-- The response produced by `doRequest` on success. -/
structure HTTPResponse where
  statusCode : Int
  body : String
  deriving Repr, DecidableEq

/-- Outcome of `HTTPClient.request`: the returned value, the breaker
state after the call, and how many transport attempts were made. -/
structure RequestResult where
  result : Except FlagKitError HTTPResponse
  breaker : CircuitBreaker
  attemptsUsed : Nat

/-- The `for attempt := 1; attempt <= maxAttempts` loop of
`HTTPClient.request`.  `tr` is the transport oracle giving the outcome
of each numbered attempt, `remaining = maxAttempts - attempt + 1`; when
attempts run out the loop records a breaker failure and wraps the last
error in a `NETWORK_RETRY_LIMIT` error.  Backoff sleeps only pause and
are invisible here. -/
def requestLoop (tr : Nat → Except FlagKitError HTTPResponse) (now : Int) :
    Nat → Nat → CircuitBreaker → Option FlagKitError → RequestResult
  | attempt, 0, cb, lastErr =>
      { result := .error (.mk ErrNetworkRetryLimit "max retries exceeded" lastErr),
        breaker := cb.recordFailure now, attemptsUsed := attempt - 1 }
  | attempt, remaining + 1, cb, _ =>
      match tr attempt with
      | .ok resp =>
          { result := .ok resp, breaker := cb.recordSuccess, attemptsUsed := attempt }
      | .error e =>
          if isRetryable e then requestLoop tr now (attempt + 1) remaining cb (some e)
          else { result := .error e, breaker := cb.recordFailure now,
                 attemptsUsed := attempt }

/-- `HTTPClient.request`: consult the circuit breaker, then run the
retry loop. -/
def request (tr : Nat → Except FlagKitError HTTPResponse) (now : Int)
    (maxAttempts : Nat) (cb : CircuitBreaker) : RequestResult :=
  match cb.allow now with
  | (false, cb1) =>
      { result := .error (.mk ErrCircuitOpen "circuit breaker is open" none),
        breaker := cb1, attemptsUsed := 0 }
  | (true, cb1) => requestLoop tr now 1 maxAttempts cb1 none

/-- The active/secondary key cell of `HTTPClient`. -/
structure KeyState where
  currentAPIKey : String
  secondaryAPIKey : String
  keyRotationTimestamp : Option Int
  deriving Repr, DecidableEq

/-- `HTTPClient.rotateToSecondaryKey`: swaps to the secondary key and
records the rotation time; refuses when no secondary is configured or
the secondary is already active. -/
def rotateToSecondaryKey (ks : KeyState) (now : Int) : Bool × KeyState :=
  if ks.secondaryAPIKey = "" then (false, ks)
  else if ks.currentAPIKey = ks.secondaryAPIKey then (false, ks)
  else (true, { ks with currentAPIKey := ks.secondaryAPIKey,
                        keyRotationTimestamp := some now })

/-- `HTTPClient.postWithKeyRotation`.  `doReq` is the logical request as
a function of the active API key (each invocation is one full
`request`, retry loop included).  The third component counts how many
times the logical request was issued. -/
def postWithKeyRotation (doReq : String → Except FlagKitError HTTPResponse)
    (ks : KeyState) (now : Int) :
    Except FlagKitError HTTPResponse × KeyState × Nat :=
  match doReq ks.currentAPIKey with
  | .ok resp => (.ok resp, ks, 1)
  | .error e =>
      if e.code = ErrAuthUnauthorized ∨ e.code = ErrAuthInvalidKey then
        if ks.secondaryAPIKey ≠ "" then
          match rotateToSecondaryKey ks now with
          | (true, ks1) => (doReq ks1.currentAPIKey, ks1, 2)
          | (false, ks1) => (.error e, ks1, 1)
        else (.error e, ks, 1)
      else (.error e, ks, 1)

/-- `persistence.EventStatusPending`. -/
def eventStatusPending : String := "pending"

/-- `persistence.EventStatusSending`. -/
def eventStatusSending : String := "sending"

/-- `persistence.EventStatusSent`. -/
def eventStatusSent : String := "sent"

/-- `persistence.EventStatusFailed`. -/
def eventStatusFailed : String := "failed"

/-- `persistence.PersistedEvent`.  `Status` is a string type in Go.  A
WAL line is also a `PersistedEvent`: every line the WAL writes — full
events from `flushLocked` and the `{id, status, sentAt?}` update objects
from `MarkSent`/`MarkSending`/`MarkFailed` — is a JSON object that
`json.Unmarshal` decodes into `PersistedEvent` without error (absent
fields take Go zero values), so `readEventsFromFile` takes its
full-event branch on every well-formed line; its status-update fallback
branch only runs for lines that fail to decode. -/
structure PersistedEvent where
  id : String
  eventType : String
  data : List (String × GoVal)
  context : List (String × GoVal)
  timestamp : Int
  status : String
  sentAt : Int

/-- One iteration of the scanner loop in `readEventsFromFile`: a decoded
line with a non-empty id replaces the map entry for that id wholesale. -/
def readLine (eventMap : List (String × PersistedEvent)) (line : PersistedEvent) :
    List (String × PersistedEvent) :=
  if line.id ≠ "" then insertKey eventMap line.id line else eventMap

/-- Replay of all event files, line by line, building `id → event`
(`eventMap` in `Recover`). -/
def replayLines (lines : List PersistedEvent) : List (String × PersistedEvent) :=
  lines.foldl readLine []

/-- `EventPersistence.Recover`: replay, then keep the events whose final
status is pending or sending, resetting sending to pending.  (Go
iterates the map in unspecified order; the membership properties proved
below are order-independent.) -/
def recover (lines : List PersistedEvent) : List PersistedEvent :=
  (replayLines lines).filterMap (fun kv =>
    if kv.2.status = eventStatusPending ∨ kv.2.status = eventStatusSending then
      some { kv.2 with status := eventStatusPending }
    else none)

/-- The last WAL record for a given id (`id ≠ ""`): by the replay rule
this record determines the live status of the event. -/
def lastWrite (lines : List PersistedEvent) (id : String) : Option PersistedEvent :=
  (lines.filter (fun l => l.id = id)).getLast?

/-- Modelled from the claim's words, for comparison with `recover`: a
replay in which an id never leaves a terminal status — once a record
with status sent or failed is in the map, subsequent records for that id
are ignored. -/
def readLineSticky (eventMap : List (String × PersistedEvent))
    (line : PersistedEvent) : List (String × PersistedEvent) :=
  if line.id ≠ "" then
    match lookupKey eventMap line.id with
    | some prev =>
        if prev.status = eventStatusSent ∨ prev.status = eventStatusFailed then
          eventMap
        else insertKey eventMap line.id line
    | none => insertKey eventMap line.id line
  else eventMap

/-- Modelled from the claim's words: `recover` over the sticky replay. -/
def recoverSticky (lines : List PersistedEvent) : List PersistedEvent :=
  (lines.foldl readLineSticky []).filterMap (fun kv =>
    if kv.2.status = eventStatusPending ∨ kv.2.status = eventStatusSending then
      some { kv.2 with status := eventStatusPending }
    else none)

/-- `core.PollingConfig`.  The backoff multiplier is a `float64`,
modelled as a rational; intervals are durations. -/
structure PollingConfig where
  interval : Int
  jitter : Int
  backoffMultiplier : ℚ
  maxInterval : Int

/-- The interval/error-counter state of `core.PollingManager`. -/
structure PollingManager where
  currentInterval : Int
  consecutiveErrors : Int

/-- `PollingManager.OnSuccess`: reset the error counter and the interval
to the configured base. -/
def PollingManager.onSuccess (_pm : PollingManager) (cfg : PollingConfig) :
    PollingManager :=
  { currentInterval := cfg.interval, consecutiveErrors := 0 }

/-- `PollingManager.OnError`: multiply the interval by the backoff
multiplier (Go's `time.Duration(float64(d) * m)` truncates toward zero;
on the non-negative domain that is the floor) and cap at the maximum. -/
def PollingManager.onError (pm : PollingManager) (cfg : PollingConfig) :
    PollingManager :=
  let newInterval : Int := ⌊(pm.currentInterval : ℚ) * cfg.backoffMultiplier⌋
  let capped := if newInterval > cfg.maxInterval then cfg.maxInterval else newInterval
  { currentInterval := capped, consecutiveErrors := pm.consecutiveErrors + 1 }

/-- `n` consecutive failed polls. -/
def PollingManager.onErrorIter (pm : PollingManager) (cfg : PollingConfig) :
    Nat → PollingManager
  | 0 => pm
  | n + 1 => (pm.onErrorIter cfg n).onError cfg

/-- Lowercase hexadecimal digit. -/
def hexDigit (n : Nat) : Char :=
  if n < 10 then Char.ofNat (48 + n) else Char.ofNat (87 + n)

/-- `encoding/json` escaping of one string character as performed by
`json.Marshal`: quotes and backslashes escaped, `\n` `\r` `\t` short
forms, the HTML characters and remaining control characters as
`\u00xx`, everything else verbatim. -/
def jsonEscapeChar (c : Char) : String :=
  if c = '"' then "\\\""
  else if c = '\\' then "\\\\"
  else if c = '\n' then "\\n"
  else if c = '\r' then "\\r"
  else if c = '\t' then "\\t"
  else if c = '<' then "\\u003c"
  else if c = '>' then "\\u003e"
  else if c = '&' then "\\u0026"
  else if c.toNat < 32 then
    String.mk ['\\', 'u', '0', '0', hexDigit (c.toNat / 16), hexDigit (c.toNat % 16)]
  else String.singleton c

/-- `json.Marshal` of a Go string: quoted and escaped. -/
def jsonEscapeString (s : String) : String :=
  "\"" ++ String.join (s.toList.map jsonEscapeChar) ++ "\""

/-- Insertion step of sorting rendered fields by key (byte-wise
lexicographic, which on UTF-8 agrees with code-point order — the order
`sort.Strings` uses in `canonicalizeMap`). -/
def insertSortedField (p : String × String) :
    List (String × String) → List (String × String)
  | [] => [p]
  | q :: rest => if p.1 ≤ q.1 then p :: q :: rest else q :: insertSortedField p rest

/-- Key-sorting of rendered fields (stable; Go map keys are unique, so
sorting the keys and looking each up — what `canonicalizeMap` does — is
the same as sorting the rendered pairs). -/
def sortFields (l : List (String × String)) : List (String × String) :=
  l.foldr insertSortedField []

mutual

/-- `canonicalizeValue`: deterministic canonical-JSON rendering — `null`
/ `true` / `false` literals, integers in shortest decimal form (integral
`float64` values are emitted in integer form by the Go code; see the
file header for the number domain), JSON-escaped strings, arrays in
source order, objects with keys sorted ascending and no whitespace. -/
def canonicalizeValue : GoVal → String
  | .vNull => "null"
  | .vBool b => if b then "true" else "false"
  | .vNum i => toString i
  | .vStr s => jsonEscapeString s
  | .vArr xs => "[" ++ String.intercalate "," (canonList xs) ++ "]"
  | .vJson m =>
      "\x7b" ++ String.intercalate ","
        ((sortFields (canonFields m)).map
          (fun kv => jsonEscapeString kv.1 ++ ":" ++ kv.2)) ++ "\x7d"

/-- `canonicalizeArray`'s element loop: elements in source order. -/
def canonList : List GoVal → List String
  | [] => []
  | x :: xs => canonicalizeValue x :: canonList xs

/-- `canonicalizeMap`'s per-field rendering. -/
def canonFields : List (String × GoVal) → List (String × String)
  | [] => []
  | (k, v) :: rest => (k, canonicalizeValue v) :: canonFields rest

end

/-- `CanonicalizeObject`: the entry point used on bootstrap flag maps
(Go's `nil` map short-circuits to the same `\x7b\x7d` the empty
rendering produces). -/
def CanonicalizeObject (m : List (String × GoVal)) : String :=
  canonicalizeValue (.vJson m)

/-- `config.BootstrapConfig`: flags plus optional signature and
timestamp (milliseconds). -/
structure BootstrapConfig where
  flags : List (String × GoVal)
  signature : String
  timestamp : Int

/-- `config.BootstrapVerificationConfig`.  `maxAge` is a `time.Duration`
in nanoseconds, as in Go. -/
structure BootstrapVerificationConfig where
  enabled : Bool
  maxAge : Int
  onFailure : String

/-- `VerifyBootstrapSignature`.  `hmacSHA256Hex message key` stands for
the Go standard library's hex-encoded HMAC-SHA256 (`GenerateHMACSHA256`);
theorems quantify over it.  The Go constant-time comparison
`hmac.Equal` decides exactly string equality; the timing aspect is not a
functional property.  `MaxAge.Milliseconds()` is division by 10^6
(exact here since the guard has `maxAge > 0`). -/
def VerifyBootstrapSignature (hmacSHA256Hex : String → String → String)
    (now : Int) (bootstrap : BootstrapConfig) (apiKey : String)
    (config : BootstrapVerificationConfig) : Bool × Option FlagKitError :=
  if ¬config.enabled then (true, none)
  else if bootstrap.signature = "" then (true, none)
  else
    let tsCheck : Option FlagKitError :=
      if config.maxAge > 0 ∧ bootstrap.timestamp > 0 then
        let age := now - bootstrap.timestamp
        let maxAgeMs := config.maxAge / 1000000
        if age > maxAgeMs then
          some (.mk ErrSecuritySignatureInvalid "bootstrap data is expired" none)
        else if age < -300000 then
          some (.mk ErrSecuritySignatureInvalid
            "bootstrap timestamp is in the future" none)
        else none
      else none
    match tsCheck with
    | some e => (false, some e)
    | none =>
        let canonical := CanonicalizeObject bootstrap.flags
        let message := toString bootstrap.timestamp ++ "." ++ canonical
        let expectedSignature := hmacSHA256Hex message apiKey
        if bootstrap.signature ≠ expectedSignature then
          (false, some (.mk ErrSecuritySignatureInvalid
            "bootstrap signature verification failed: signature mismatch" none))
        else (true, none)

/-- JSON values as decoded by `encoding/json`.  A number remembers
whether its literal was a pure integer (no fraction, no exponent): Go's
decoder rejects non-integer literals for `int` struct fields.  The
integer value of a non-integral literal is irrelevant and kept as 0. -/
inductive PJson where
  | pNull : PJson
  | pBool (b : Bool) : PJson
  | pNum (intVal : Int) (isInt : Bool) : PJson
  | pStr (s : String) : PJson
  | pArr (xs : List PJson) : PJson
  | pObj (fields : List (String × PJson)) : PJson

/-- The opening-brace character, kept out of literals. -/
def lbraceChar : Char := Char.ofNat 123

/-- The closing-brace character, kept out of literals. -/
def rbraceChar : Char := Char.ofNat 125

/-- JSON whitespace. -/
def isWsChar (c : Char) : Bool :=
  c = ' ' || c = '\t' || c = '\n' || c = '\r'

/-- Skip leading JSON whitespace. -/
def skipWs : List Char → List Char
  | [] => []
  | c :: cs => if isWsChar c then skipWs cs else c :: cs

/-- ASCII decimal digit test. -/
def isDigitChar (c : Char) : Bool :=
  48 ≤ c.toNat && c.toNat ≤ 57

/-- Hexadecimal digit value. -/
def hexVal (c : Char) : Option Nat :=
  if 48 ≤ c.toNat ∧ c.toNat ≤ 57 then some (c.toNat - 48)
  else if 97 ≤ c.toNat ∧ c.toNat ≤ 102 then some (c.toNat - 87)
  else if 65 ≤ c.toNat ∧ c.toNat ≤ 70 then some (c.toNat - 55)
  else none

/-- JSON string body parser (opening quote already consumed): handles
the standard escapes, rejects unescaped control characters, returns the
decoded string and the input after the closing quote. -/
def parseStringChars : List Char → String → Option (String × List Char)
  | [], _ => none
  | c :: cs, acc =>
    if c = '"' then some (acc, cs)
    else if c = '\\' then
      match cs with
      | [] => none
      | e :: cs2 =>
        if e = '"' then parseStringChars cs2 (acc.push '"')
        else if e = '\\' then parseStringChars cs2 (acc.push '\\')
        else if e = '/' then parseStringChars cs2 (acc.push '/')
        else if e = 'b' then parseStringChars cs2 (acc.push (Char.ofNat 8))
        else if e = 'f' then parseStringChars cs2 (acc.push (Char.ofNat 12))
        else if e = 'n' then parseStringChars cs2 (acc.push '\n')
        else if e = 'r' then parseStringChars cs2 (acc.push '\r')
        else if e = 't' then parseStringChars cs2 (acc.push '\t')
        else if e = 'u' then
          match cs2 with
          | h1 :: h2 :: h3 :: h4 :: cs3 =>
            match hexVal h1, hexVal h2, hexVal h3, hexVal h4 with
            | some v1, some v2, some v3, some v4 =>
                parseStringChars cs3
                  (acc.push (Char.ofNat (((v1 * 16 + v2) * 16 + v3) * 16 + v4)))
            | _, _, _, _ => none
          | _ => none
        else none
    else if c.toNat < 32 then none
    else parseStringChars cs (acc.push c)

/-- Longest decimal-digit prefix. -/
def takeDigits : List Char → List Char × List Char
  | [] => ([], [])
  | c :: cs =>
      if isDigitChar c then
        let p := takeDigits cs
        (c :: p.1, p.2)
      else ([], c :: cs)

/-- Decimal digits to a natural number. -/
def digitsToNat (ds : List Char) : Nat :=
  ds.foldl (fun acc c => acc * 10 + (c.toNat - 48)) 0

/-- JSON number parser: optional minus, integer part without redundant
leading zero, optional fraction and exponent (either of which makes the
literal non-integral). -/
def parseNumber (cs : List Char) : Option (PJson × List Char) :=
  let signSplit : Bool × List Char :=
    match cs with
    | c :: rest => if c = '-' then (true, rest) else (false, cs)
    | [] => (false, [])
  let neg := signSplit.1
  let cs1 := signSplit.2
  match cs1 with
  | [] => none
  | c :: rest =>
    if ¬ isDigitChar c then none
    else
      let intSplit : Option (List Char × List Char) :=
        if c = '0' then
          match rest with
          | d :: _ => if isDigitChar d then none else some ([c], rest)
          | [] => some ([c], rest)
        else some (takeDigits cs1)
      match intSplit with
      | none => none
      | some (intDigits, afterInt) =>
        let fracSplit : Option (Bool × List Char) :=
          match afterInt with
          | '.' :: fs =>
              let p := takeDigits fs
              if p.1.isEmpty then none else some (true, p.2)
          | _ => some (false, afterInt)
        match fracSplit with
        | none => none
        | some (hasFrac, afterFrac) =>
          let expSplit : Option (Bool × List Char) :=
            match afterFrac with
            | e :: es =>
              if e = 'e' ∨ e = 'E' then
                let es2 :=
                  match es with
                  | s :: ss => if s = '+' ∨ s = '-' then ss else es
                  | [] => es
                let p := takeDigits es2
                if p.1.isEmpty then none else some (true, p.2)
              else some (false, afterFrac)
            | [] => some (false, afterFrac)
          match expSplit with
          | none => none
          | some (hasExp, afterExp) =>
            let isInt := ¬ hasFrac ∧ ¬ hasExp
            let v : Int :=
              if isInt then
                if neg then -(digitsToNat intDigits : Int) else (digitsToNat intDigits : Int)
              else 0
            some (.pNum v (decide isInt), afterExp)

mutual

/-- Fuel-bounded JSON value parser (the fuel only bounds recursion depth
and member counts; `parseJson` supplies enough for its whole input). -/
def parseValue : Nat → List Char → Option (PJson × List Char)
  | 0, _ => none
  | fuel + 1, cs =>
    match skipWs cs with
    | [] => none
    | c :: rest =>
      if c = 'n' then
        match rest with
        | 'u' :: 'l' :: 'l' :: r => some (.pNull, r)
        | _ => none
      else if c = 't' then
        match rest with
        | 'r' :: 'u' :: 'e' :: r => some (.pBool true, r)
        | _ => none
      else if c = 'f' then
        match rest with
        | 'a' :: 'l' :: 's' :: 'e' :: r => some (.pBool false, r)
        | _ => none
      else if c = '"' then
        match parseStringChars rest "" with
        | some (s, r) => some (.pStr s, r)
        | none => none
      else if c = lbraceChar then
        match skipWs rest with
        | d :: r2 =>
            if d = rbraceChar then some (.pObj [], r2)
            else parseObjMembers fuel (d :: r2) []
        | [] => none
      else if c = '[' then
        match skipWs rest with
        | d :: r2 =>
            if d = ']' then some (.pArr [], r2)
            else parseArrElems fuel (d :: r2) []
        | [] => none
      else parseNumber (c :: rest)

/-- Object members: positioned at the start of a `"key": value` pair. -/
def parseObjMembers : Nat → List Char → List (String × PJson) →
    Option (PJson × List Char)
  | 0, _, _ => none
  | fuel + 1, cs, acc =>
    match skipWs cs with
    | '"' :: rest =>
      match parseStringChars rest "" with
      | none => none
      | some (k, afterKey) =>
        match skipWs afterKey with
        | ':' :: afterColon =>
          match parseValue fuel afterColon with
          | none => none
          | some (v, afterVal) =>
            match skipWs afterVal with
            | d :: r =>
                if d = ',' then parseObjMembers fuel r (acc ++ [(k, v)])
                else if d = rbraceChar then some (.pObj (acc ++ [(k, v)]), r)
                else none
            | [] => none
        | _ => none
    | _ => none

/-- Array elements: positioned at the start of a value. -/
def parseArrElems : Nat → List Char → List PJson → Option (PJson × List Char)
  | 0, _, _ => none
  | fuel + 1, cs, acc =>
    match parseValue fuel cs with
    | none => none
    | some (v, afterVal) =>
      match skipWs afterVal with
      | d :: r =>
          if d = ',' then parseArrElems fuel r (acc ++ [v])
          else if d = ']' then some (.pArr (acc ++ [v]), r)
          else none
      | [] => none

end

/-- `json.Unmarshal` of one complete JSON document: parse one value and
require only whitespace after it. -/
def parseJson (s : String) : Option PJson :=
  match parseValue (2 * s.length + 4) s.toList with
  | none => none
  | some (v, rest) => if (skipWs rest).isEmpty then some v else none

/-- ASCII lower-casing of one character (the JSON field names matched
here are pure ASCII). -/
def asciiToLower (c : Char) : Char :=
  if 65 ≤ c.toNat ∧ c.toNat ≤ 90 then Char.ofNat (c.toNat + 32) else c

/-- ASCII lower-casing, used for Go's case-insensitive JSON field-name
matching. -/
def strToLower (s : String) : String :=
  String.mk (s.toList.map asciiToLower)

/-- Field assignment of `json.Unmarshal` into `EncryptedData` for one
object member, in document order (later duplicates overwrite, Go's
field-name matching is case-insensitive, JSON `null` leaves the field
untouched, a wrong-typed value aborts with an error, unknown fields are
ignored). -/
def applyEncField (st : Option (String × String × Int)) (kv : String × PJson) :
    Option (String × String × Int) :=
  match st with
  | none => none
  | some (iv, dat, ver) =>
    if strToLower kv.1 = "iv" then
      match kv.2 with
      | .pStr s => some (s, dat, ver)
      | .pNull => some (iv, dat, ver)
      | _ => none
    else if strToLower kv.1 = "data" then
      match kv.2 with
      | .pStr s => some (iv, s, ver)
      | .pNull => some (iv, dat, ver)
      | _ => none
    else if strToLower kv.1 = "version" then
      match kv.2 with
      | .pNum i true => some (iv, dat, i)
      | .pNull => some (iv, dat, ver)
      | _ => none
    else some (iv, dat, ver)

/-- `json.Unmarshal([]byte(s), &encrypted)` for the `EncryptedData`
struct `(iv, data, version)`: a JSON object is folded field by field
over the zero value, a JSON `null` document leaves the zero value, any
other document is an error. -/
def unmarshalEncryptedData (s : String) : Option (String × String × Int) :=
  match parseJson s with
  | some .pNull => some ("", "", 0)
  | some (.pObj fields) => fields.foldl applyEncField (some ("", "", 0))
  | _ => none

/-- `IsEncrypted`: structural predicate — decodes as `EncryptedData`
with positive version and non-empty `iv` and `data`. -/
def IsEncrypted (data : String) : Bool :=
  match unmarshalEncryptedData data with
  | none => false
  | some (iv, dat, ver) => if ver > 0 ∧ iv ≠ "" ∧ dat ≠ "" then true else false

/-- Base64 symbol value for the standard alphabet. -/
def b64Val (c : Char) : Option Nat :=
  if 65 ≤ c.toNat ∧ c.toNat ≤ 90 then some (c.toNat - 65)
  else if 97 ≤ c.toNat ∧ c.toNat ≤ 122 then some (c.toNat - 71)
  else if 48 ≤ c.toNat ∧ c.toNat ≤ 57 then some (c.toNat + 4)
  else if c = '+' then some 62
  else if c = '/' then some 63
  else none

/-- `base64.StdEncoding.DecodeString` on one stream of 4-character
groups: padding only in the final group, length must be a multiple of
four. -/
def base64DecodeGroups : List Char → Option (List Nat)
  | [] => some []
  | c1 :: c2 :: c3 :: c4 :: rest =>
    match b64Val c1, b64Val c2 with
    | some v1, some v2 =>
      if c3 = '=' then
        if c4 = '=' ∧ rest = [] then some [v1 * 4 + v2 / 16] else none
      else
        match b64Val c3 with
        | none => none
        | some v3 =>
          if c4 = '=' then
            if rest = [] then some [v1 * 4 + v2 / 16, (v2 % 16) * 16 + v3 / 4]
            else none
          else
            match b64Val c4 with
            | none => none
            | some v4 =>
              match base64DecodeGroups rest with
              | none => none
              | some tail =>
                  some ((v1 * 4 + v2 / 16) :: ((v2 % 16) * 16 + v3 / 4) ::
                        ((v3 % 4) * 64 + v4) :: tail)
    | _, _ => none
  | _ => none

/-- `base64.StdEncoding.DecodeString`. -/
def base64Decode (s : String) : Option (List Nat) :=
  base64DecodeGroups s.toList

/-- `EncryptedStorage.Decrypt`.  `gcmOpen iv data` stands for the Go
standard library's `gcm.Open` with the derived key (AES-256-GCM tag
validation included); `keyDerived` is `s.derivedKey != nil`.  The
`aes.NewCipher`/`cipher.NewGCM` constructors cannot fail on a 32-byte
derived key. -/
def EncryptedStorage.decrypt (gcmOpen : List Nat → List Nat → Option String)
    (keyDerived : Bool) (ciphertext : String) : Except FlagKitError String :=
  if ¬keyDerived then
    .error (.mk ErrSecurityDecryptionFailed "encryption key not derived" none)
  else
    match unmarshalEncryptedData ciphertext with
    | none => .error (.mk ErrSecurityDecryptionFailed
        "failed to parse encrypted data" none)
    | some (iv, dat, ver) =>
      if ver ≠ 1 then
        .error (.mk ErrSecurityDecryptionFailed "unsupported encryption version" none)
      else
        match base64Decode iv with
        | none => .error (.mk ErrSecurityDecryptionFailed "failed to decode IV" none)
        | some ivBytes =>
          match base64Decode dat with
          | none => .error (.mk ErrSecurityDecryptionFailed
              "failed to decode ciphertext" none)
          | some datBytes =>
            match gcmOpen ivBytes datBytes with
            | none => .error (.mk ErrSecurityDecryptionFailed
                "decryption failed (invalid key or corrupted data)" none)
            | some plaintext => .ok plaintext

/-- `EncryptedCacheStorage.Set`.  `encOutcome` is the outcome of
`c.storage.Encrypt(value)` (random-IV AES-GCM, taken as a parameter):
on error the *plaintext* value is stored and the error returned; on
success the ciphertext is stored. -/
def EncryptedCacheStorage.set (encOutcome : Except FlagKitError String)
    (cache : List (String × String)) (key value : String) :
    List (String × String) × Option FlagKitError :=
  match encOutcome with
  | .error err => (insertKey cache key value, some err)
  | .ok encrypted => (insertKey cache key encrypted, none)

/-- `EncryptedCacheStorage.Get`: missing keys yield `""` with no error;
stored strings that do not look encrypted are returned as-is (legacy
path); otherwise the stored string is decrypted. -/
def EncryptedCacheStorage.get (gcmOpen : List Nat → List Nat → Option String)
    (keyDerived : Bool) (cache : List (String × String)) (key : String) :
    Except FlagKitError String :=
  match lookupKey cache key with
  | none => .ok ""
  | some stored =>
      if ¬ IsEncrypted stored then .ok stored
      else EncryptedStorage.decrypt gcmOpen keyDerived stored

/-- A concrete flag used by the C6 counterexample. -/
def flagForC6 : FlagState :=
  { key := "a", value := .vBool true, enabled := true, version := 1,
    flagType := "boolean", lastModified := "" }

/-- A concrete flag with the empty-string key, for the C5 counterexample. -/
def flagE5 : FlagState :=
  { key := "", value := .vBool true, enabled := true, version := 1,
    flagType := "boolean", lastModified := "" }

/-- A concrete flag with key `x`, for the C5 counterexample and witness. -/
def flagX5 : FlagState :=
  { key := "x", value := .vBool true, enabled := true, version := 1,
    flagType := "boolean", lastModified := "" }

/-- `errors.ErrSecurityEncryptionFailed`. -/
def ErrSecurityEncryptionFailed : String := "SECURITY_ENCRYPTION_FAILED"

/-- A plaintext that itself satisfies the `IsEncrypted` structural
predicate: the JSON text `\x7b"iv":"a","data":"b","version":2\x7d`. -/
def valForC10 : String := "\x7b\"iv\":\"a\",\"data\":\"b\",\"version\":2\x7d"

/-- Keys of an association list are pairwise distinct (lookup-based
formulation). -/
def NodupKeys {α : Type} : List (String × α) → Prop
  | [] => True
  | (k, _) :: rest => lookupKey rest k = none ∧ NodupKeys rest


/-! Shared association-list lemmas. -/

theorem lookupKey_insertKey {α : Type} (l : List (String × α)) (k : String) (v : α)
    (k2 : String) :
    lookupKey (insertKey l k v) k2 = if k = k2 then some v else lookupKey l k2 := by
  induction l with
  | nil => simp [insertKey, lookupKey]
  | cons kv rest ih =>
      obtain ⟨k1, v1⟩ := kv
      by_cases h : k1 = k
      · subst h
        simp [insertKey, lookupKey]
        by_cases h2 : k1 = k2 <;> simp [h2, lookupKey]
      · simp [insertKey, h, lookupKey]
        by_cases h2 : k1 = k2
        · subst h2
          have hne : ¬(k = k1) := fun he => h he.symm
          simp [lookupKey, hne]
        · simp [lookupKey, h2, ih]

theorem insertKey_length {α : Type} (l : List (String × α)) (k : String) (v : α) :
    (insertKey l k v).length =
      if (lookupKey l k).isSome then l.length else l.length + 1 := by
  induction l with
  | nil => simp [insertKey, lookupKey]
  | cons kv rest ih =>
      obtain ⟨k1, v1⟩ := kv
      by_cases h : k1 = k
      · simp [insertKey, h, lookupKey]
      · simp [insertKey, h, lookupKey, ih]
        by_cases h2 : (lookupKey rest k).isSome <;> simp [h2]

theorem mem_insertKey {α : Type} {l : List (String × α)} {k : String} {v : α}
    {kv : String × α} (h : kv ∈ insertKey l k v) : kv ∈ l ∨ kv = (k, v) := by
  induction l with
  | nil => simp [insertKey] at h; simp [h]
  | cons kv2 rest ih =>
      obtain ⟨k1, v1⟩ := kv2
      by_cases h2 : k1 = k
      · simp [insertKey, h2] at h
        rcases h with h | h
        · right; exact h
        · left; simp [h]
      · simp [insertKey, h2] at h
        rcases h with h | h
        · left; simp [h]
        · rcases ih h with h3 | h3
          · left; simp [h3]
          · right; exact h3

theorem mem_removeKey {α : Type} {l : List (String × α)} {k : String}
    {kv : String × α} (h : kv ∈ removeKey l k) : kv ∈ l := by
  induction l with
  | nil => simp [removeKey] at h
  | cons kv2 rest ih =>
      obtain ⟨k1, v1⟩ := kv2
      by_cases h2 : k1 = k
      · simp [removeKey, h2] at h
        simp [h]
      · simp [removeKey, h2] at h
        rcases h with h | h
        · simp [h]
        · simp [ih h]

theorem removeKey_length_of_lookup {α : Type} (l : List (String × α)) (k : String)
    (h : (lookupKey l k).isSome) : (removeKey l k).length + 1 = l.length := by
  induction l with
  | nil => simp [lookupKey] at h
  | cons kv rest ih =>
      obtain ⟨k1, v1⟩ := kv
      by_cases h2 : k1 = k
      · simp [removeKey, h2]
      · simp [lookupKey, h2] at h
        simp [removeKey, h2, ih h]

theorem mem_of_lookupKey_some {α : Type} {l : List (String × α)} {k : String}
    {v : α} (h : lookupKey l k = some v) : (k, v) ∈ l := by
  induction l with
  | nil => simp [lookupKey] at h
  | cons kv rest ih =>
      obtain ⟨k1, v1⟩ := kv
      by_cases h2 : k1 = k
      · subst h2
        simp [lookupKey] at h
        simp [h]
      · simp [lookupKey, h2] at h
        simp [ih h]

theorem lookupKey_isSome_of_mem {α : Type} {l : List (String × α)} {k : String}
    {v : α} (h : (k, v) ∈ l) : (lookupKey l k).isSome := by
  induction l with
  | nil => simp at h
  | cons kv rest ih =>
      obtain ⟨k1, v1⟩ := kv
      by_cases h2 : k1 = k
      · simp [lookupKey, h2]
      · simp [lookupKey, h2]
        rcases List.mem_cons.mp h with h3 | h3
        · exact absurd (congrArg Prod.fst h3).symm h2
        · exact ih h3

theorem lookupKey_removeKey_ne {α : Type} (l : List (String × α)) (k k2 : String)
    (h : k2 ≠ k) : lookupKey (removeKey l k) k2 = lookupKey l k2 := by
  induction l with
  | nil => simp [removeKey]
  | cons kv rest ih =>
      obtain ⟨k1, v1⟩ := kv
      by_cases h2 : k1 = k
      · subst h2
        have hne : ¬(k1 = k2) := fun he => h (he.symm)
        simp [removeKey, lookupKey, hne]
      · by_cases h3 : k1 = k2 <;> simp [removeKey, h2, lookupKey, h3, h, ih]

theorem nodupKeys_cons {α : Type} (k : String) (v : α) (rest : List (String × α)) :
    NodupKeys ((k, v) :: rest) ↔ lookupKey rest k = none ∧ NodupKeys rest :=
  Iff.rfl

theorem nodupKeys_insertKey {α : Type} {l : List (String × α)} (k : String) (v : α)
    (h : NodupKeys l) : NodupKeys (insertKey l k v) := by
  induction l with
  | nil => simp [insertKey, NodupKeys, lookupKey]
  | cons kv rest ih =>
      obtain ⟨k1, v1⟩ := kv
      obtain ⟨hl, hn⟩ := h
      by_cases h2 : k1 = k
      · subst h2
        simpa [insertKey, nodupKeys_cons] using ⟨hl, hn⟩
      · simp only [insertKey, if_neg h2, nodupKeys_cons]
        refine ⟨?_, ih hn⟩
        rw [lookupKey_insertKey]
        have hne : ¬(k = k1) := fun he => h2 he.symm
        simp [hne, hl]

theorem nodupKeys_removeKey {α : Type} {l : List (String × α)} (k : String)
    (h : NodupKeys l) : NodupKeys (removeKey l k) := by
  induction l with
  | nil => simp [removeKey, NodupKeys]
  | cons kv rest ih =>
      obtain ⟨k1, v1⟩ := kv
      obtain ⟨hl, hn⟩ := h
      by_cases h2 : k1 = k
      · simpa [removeKey, h2] using hn
      · simp only [removeKey, if_neg h2, nodupKeys_cons]
        refine ⟨?_, ih hn⟩
        rw [lookupKey_removeKey_ne]
        · exact hl
        · exact h2

theorem lookupKey_removeKey_self {α : Type} {l : List (String × α)} {k : String}
    (h : NodupKeys l) : lookupKey (removeKey l k) k = none := by
  induction l with
  | nil => simp [removeKey, lookupKey]
  | cons kv rest ih =>
      obtain ⟨k1, v1⟩ := kv
      obtain ⟨hl, hn⟩ := h
      by_cases h2 : k1 = k
      · subst h2
        simpa [removeKey] using hl
      · simp [removeKey, h2, lookupKey]
        exact ih hn

theorem lookupKey_eq_some_of_mem {α : Type} {l : List (String × α)}
    {k : String} {v : α} (hn : NodupKeys l) (h : (k, v) ∈ l) :
    lookupKey l k = some v := by
  induction l with
  | nil => simp at h
  | cons kv rest ih =>
      obtain ⟨k1, v1⟩ := kv
      obtain ⟨hl, hn2⟩ := hn
      rcases List.mem_cons.mp h with h2 | h2
      · obtain ⟨he1, he2⟩ := Prod.mk.injEq .. ▸ h2
        subst he1
        simp [lookupKey, he2.symm]
      · by_cases h3 : k1 = k
        · subst h3
          have := lookupKey_isSome_of_mem h2
          simp [hl] at this
        · simp [lookupKey, h3]
          exact ih hn2 h2

/-! Claim C6 — cache freshness semantics. -/

/-- Claim C6 counterexample: the claim says `get` returns the stored
flag exactly when `now < expires_at`; but at the boundary
`now = expires_at` (entry written at time 0 with TTL 100, read at 100)
the code still returns the flag, because Go tests staleness with
`time.Now().After(expiresAt)`, which is strict. -/
theorem cache_get_boundary_counterexample :
    ((Cache.new 100 5).set 0 "a" flagForC6 none).get 100 "a" = some flagForC6 ∧
    (lookupKey ((Cache.new 100 5).set 0 "a" flagForC6 none).entries "a").map
        CacheEntry.expiresAt = some 100 ∧
    ¬((100 : Int) < 100) := by
  refine ⟨rfl, rfl, by omega⟩

/-- Claim C6 (amended): `get` returns the stored flag exactly when an
entry exists and is fresh, where fresh means `now ≤ expires_at` (the Go
`After` test is strict, so the boundary instant is still served);
`get_stale` returns any existing entry ignoring expiry; `is_stale` is
true only when the entry exists and `expires_at < now` — a missing key
is not stale. -/
theorem cache_get_freshness (c : Cache) (now : Int) (key : String) :
    (∀ f, c.get now key = some f ↔
       ∃ e, lookupKey c.entries key = some e ∧ now ≤ e.expiresAt ∧ f = e.flag) ∧
    (∀ f, c.getStale key = some f ↔
       ∃ e, lookupKey c.entries key = some e ∧ f = e.flag) ∧
    (c.isStale now key = true ↔
       ∃ e, lookupKey c.entries key = some e ∧ e.expiresAt < now) ∧
    (lookupKey c.entries key = none → c.isStale now key = false) := by
  refine ⟨?_, ?_, ?_, ?_⟩
  · intro f
    cases h : lookupKey c.entries key with
    | none => simp [Cache.get, h]
    | some e =>
        simp only [Cache.get, h]
        split_ifs with hex
        · constructor
          · intro hcontra
            cases hcontra
          · rintro ⟨e2, he2, hle, _⟩
            injection he2 with hee
            subst hee
            omega
        · constructor
          · intro hsf
            injection hsf with hsf2
            exact ⟨e, rfl, by omega, hsf2.symm⟩
          · rintro ⟨e2, he2, _, hf⟩
            injection he2 with hee
            subst hee
            exact congrArg some hf.symm
  · intro f
    cases h : lookupKey c.entries key with
    | none => simp [Cache.getStale, h]
    | some e => simp [Cache.getStale, h, eq_comm]
  · cases h : lookupKey c.entries key with
    | none => simp [Cache.isStale, h]
    | some e => simp [Cache.isStale, h]
  · intro h
    simp [Cache.isStale, h]

/-- Closed witness for `cache_get_freshness` at a concrete cache. -/
theorem cache_get_freshness_witness :
    lookupKey (Cache.new 1 1).entries "k" = none ∧
    (Cache.new 1 1).isStale 0 "k" = false :=
  ⟨rfl, (cache_get_freshness (Cache.new 1 1) 0 "k").2.2.2 rfl⟩

/-! Claim C9 — polling backoff. -/

/-- Claim C9: every `on_failure` sets the interval to
`min(current × multiplier, max_interval)` (at duration granularity: the
product is floored) and, for a backoff multiplier ≥ 1 and a base not
above the maximum, never decreases it; a single `on_success` resets the
interval to the base and the error counter to zero; with base 100,
multiplier 2 and max 500, six consecutive errors yield intervals
200, 400, 500, 500, 500, 500. -/
theorem polling_backoff (cfg : PollingConfig) (pm : PollingManager)
    (hm : 1 ≤ cfg.backoffMultiplier) (hc : 0 ≤ pm.currentInterval)
    (hmax : pm.currentInterval ≤ cfg.maxInterval) :
    (pm.onError cfg).currentInterval =
      min ⌊(pm.currentInterval : ℚ) * cfg.backoffMultiplier⌋ cfg.maxInterval ∧
    pm.currentInterval ≤ (pm.onError cfg).currentInterval ∧
    (pm.onError cfg).consecutiveErrors = pm.consecutiveErrors + 1 ∧
    (∀ pm2 : PollingManager, (pm2.onSuccess cfg).currentInterval = cfg.interval ∧
        (pm2.onSuccess cfg).consecutiveErrors = 0) ∧
    List.map (fun k => (PollingManager.onErrorIter
        { currentInterval := 100, consecutiveErrors := 0 }
        { interval := 100, jitter := 0, backoffMultiplier := 2, maxInterval := 500 }
        k).currentInterval) [1, 2, 3, 4, 5, 6] = [200, 400, 500, 500, 500, 500] := by
  have hfloor : pm.currentInterval ≤ ⌊(pm.currentInterval : ℚ) * cfg.backoffMultiplier⌋ := by
    rw [Int.le_floor]
    calc ((pm.currentInterval : ℚ)) = (pm.currentInterval : ℚ) * 1 := by ring
    _ ≤ (pm.currentInterval : ℚ) * cfg.backoffMultiplier := by
        apply mul_le_mul_of_nonneg_left hm
        exact_mod_cast hc
  refine ⟨?_, ?_, ?_, ?_, ?_⟩
  · simp only [PollingManager.onError]
    split_ifs with h1 <;> omega
  · simp only [PollingManager.onError]
    split_ifs with h1 <;> omega
  · simp [PollingManager.onError]
  · intro pm2
    exact ⟨rfl, rfl⟩
  · have f200 : ⌊(100 : ℚ) * 2⌋ = (200 : Int) := by
      rw [show (100 : ℚ) * 2 = ((200 : Int) : ℚ) by norm_num, Int.floor_intCast]
    have f400 : ⌊(200 : ℚ) * 2⌋ = (400 : Int) := by
      rw [show (200 : ℚ) * 2 = ((400 : Int) : ℚ) by norm_num, Int.floor_intCast]
    have f800 : ⌊(400 : ℚ) * 2⌋ = (800 : Int) := by
      rw [show (400 : ℚ) * 2 = ((800 : Int) : ℚ) by norm_num, Int.floor_intCast]
    have f1000 : ⌊(500 : ℚ) * 2⌋ = (1000 : Int) := by
      rw [show (500 : ℚ) * 2 = ((1000 : Int) : ℚ) by norm_num, Int.floor_intCast]
    have s1 : PollingManager.onError ⟨100, 0⟩ ⟨100, 0, 2, 500⟩ = ⟨200, 1⟩ := by
      simp only [PollingManager.onError]
      norm_num [f200]
    have s2 : PollingManager.onError ⟨200, 1⟩ ⟨100, 0, 2, 500⟩ = ⟨400, 2⟩ := by
      simp only [PollingManager.onError]
      norm_num [f400]
    have s3 : PollingManager.onError ⟨400, 2⟩ ⟨100, 0, 2, 500⟩ = ⟨500, 3⟩ := by
      simp only [PollingManager.onError]
      norm_num [f800]
    have s4 : PollingManager.onError ⟨500, 3⟩ ⟨100, 0, 2, 500⟩ = ⟨500, 4⟩ := by
      simp only [PollingManager.onError]
      norm_num [f1000]
    have s5 : PollingManager.onError ⟨500, 4⟩ ⟨100, 0, 2, 500⟩ = ⟨500, 5⟩ := by
      simp only [PollingManager.onError]
      norm_num [f1000]
    have s6 : PollingManager.onError ⟨500, 5⟩ ⟨100, 0, 2, 500⟩ = ⟨500, 6⟩ := by
      simp only [PollingManager.onError]
      norm_num [f1000]
    have i1 : PollingManager.onErrorIter ⟨100, 0⟩ ⟨100, 0, 2, 500⟩ 1 = ⟨200, 1⟩ := by
      show PollingManager.onError (PollingManager.onErrorIter ⟨100, 0⟩ ⟨100, 0, 2, 500⟩ 0)
          ⟨100, 0, 2, 500⟩ = _
      rw [show PollingManager.onErrorIter ⟨100, 0⟩ ⟨100, 0, 2, 500⟩ 0 =
          (⟨100, 0⟩ : PollingManager) from rfl, s1]
    have i2 : PollingManager.onErrorIter ⟨100, 0⟩ ⟨100, 0, 2, 500⟩ 2 = ⟨400, 2⟩ := by
      show PollingManager.onError (PollingManager.onErrorIter ⟨100, 0⟩ ⟨100, 0, 2, 500⟩ 1)
          ⟨100, 0, 2, 500⟩ = _
      rw [i1, s2]
    have i3 : PollingManager.onErrorIter ⟨100, 0⟩ ⟨100, 0, 2, 500⟩ 3 = ⟨500, 3⟩ := by
      show PollingManager.onError (PollingManager.onErrorIter ⟨100, 0⟩ ⟨100, 0, 2, 500⟩ 2)
          ⟨100, 0, 2, 500⟩ = _
      rw [i2, s3]
    have i4 : PollingManager.onErrorIter ⟨100, 0⟩ ⟨100, 0, 2, 500⟩ 4 = ⟨500, 4⟩ := by
      show PollingManager.onError (PollingManager.onErrorIter ⟨100, 0⟩ ⟨100, 0, 2, 500⟩ 3)
          ⟨100, 0, 2, 500⟩ = _
      rw [i3, s4]
    have i5 : PollingManager.onErrorIter ⟨100, 0⟩ ⟨100, 0, 2, 500⟩ 5 = ⟨500, 5⟩ := by
      show PollingManager.onError (PollingManager.onErrorIter ⟨100, 0⟩ ⟨100, 0, 2, 500⟩ 4)
          ⟨100, 0, 2, 500⟩ = _
      rw [i4, s5]
    have i6 : PollingManager.onErrorIter ⟨100, 0⟩ ⟨100, 0, 2, 500⟩ 6 = ⟨500, 6⟩ := by
      show PollingManager.onError (PollingManager.onErrorIter ⟨100, 0⟩ ⟨100, 0, 2, 500⟩ 5)
          ⟨100, 0, 2, 500⟩ = _
      rw [i5, s6]
    simp only [List.map]
    rw [i1, i2, i3, i4, i5, i6]

/-- Closed witness for `polling_backoff` at a concrete configuration. -/
theorem polling_backoff_witness :
    (1 : ℚ) ≤ 2 ∧ (0 : Int) ≤ 30 ∧ (30 : Int) ≤ 300 ∧
    (PollingManager.onError { currentInterval := 30, consecutiveErrors := 0 }
      { interval := 30, jitter := 1, backoffMultiplier := 2, maxInterval := 300 }
      ).currentInterval =
      min ⌊((30 : Int) : ℚ) * (2 : ℚ)⌋ (300 : Int) :=
  ⟨by norm_num, by norm_num, by norm_num,
    (polling_backoff
      { interval := 30, jitter := 1, backoffMultiplier := 2, maxInterval := 300 }
      { currentInterval := 30, consecutiveErrors := 0 }
      (by norm_num) (by norm_num) (by norm_num)).1⟩

/-! Claim C10 — encrypted cache storage under encryption failure. -/

/-- Claim C10 counterexample: a `Set` whose encryption fails stores the
plaintext and returns the error (that much the claim states correctly),
but when the plaintext itself parses as an encrypted envelope —
`valForC10` is JSON with non-empty `iv`, `data` and `version 2` — the
subsequent `Get` does NOT classify it as unencrypted: it attempts
decryption and surfaces a version error instead of returning the
plaintext unchanged. -/
theorem encrypted_get_after_failed_set_counterexample :
    (EncryptedCacheStorage.set
        (.error (.mk ErrSecurityEncryptionFailed "failed to generate IV" none))
        [] "k" valForC10).2.isSome = true ∧
    lookupKey (EncryptedCacheStorage.set
        (.error (.mk ErrSecurityEncryptionFailed "failed to generate IV" none))
        [] "k" valForC10).1 "k" = some valForC10 ∧
    IsEncrypted valForC10 = true ∧
    EncryptedCacheStorage.get (fun _ _ => none) true
        (EncryptedCacheStorage.set
          (.error (.mk ErrSecurityEncryptionFailed "failed to generate IV" none))
          [] "k" valForC10).1 "k" =
      .error (.mk ErrSecurityDecryptionFailed "unsupported encryption version" none) :=
  ⟨rfl, rfl, rfl, rfl⟩

/-- Claim C10 (amended): if encryption fails during `Set(key, value)`,
the plaintext value is nevertheless stored under the key and the error
is returned to the caller; a subsequent `Get(key)` returns the
plaintext unchanged via the legacy path provided the plaintext does not
itself satisfy the `IsEncrypted` structural predicate — if it does,
`Get` attempts to decrypt it instead. -/
theorem encrypted_storage_set_failure
    (gcmOpen : List Nat → List Nat → Option String) (keyDerived : Bool)
    (cache : List (String × String)) (key value : String) (e : FlagKitError) :
    (EncryptedCacheStorage.set (.error e) cache key value).2 = some e ∧
    lookupKey (EncryptedCacheStorage.set (.error e) cache key value).1 key =
      some value ∧
    (IsEncrypted value = false →
      EncryptedCacheStorage.get gcmOpen keyDerived
        (EncryptedCacheStorage.set (.error e) cache key value).1 key = .ok value) ∧
    (IsEncrypted value = true →
      EncryptedCacheStorage.get gcmOpen keyDerived
        (EncryptedCacheStorage.set (.error e) cache key value).1 key =
        EncryptedStorage.decrypt gcmOpen keyDerived value) := by
  have hl : lookupKey (insertKey cache key value) key = some value := by
    rw [lookupKey_insertKey]
    simp
  refine ⟨rfl, hl, ?_, ?_⟩
  · intro hne
    simp [EncryptedCacheStorage.get, EncryptedCacheStorage.set, hl, hne]
  · intro henc
    simp [EncryptedCacheStorage.get, EncryptedCacheStorage.set, hl, henc]

/-- Closed witness for `encrypted_storage_set_failure`. -/
theorem encrypted_storage_set_failure_witness :
    IsEncrypted "v" = false ∧
    EncryptedCacheStorage.get (fun _ _ => none) true
      (EncryptedCacheStorage.set
        (.error (.mk ErrSecurityEncryptionFailed "boom" none)) [] "k" "v").1 "k" =
      .ok "v" :=
  ⟨rfl, (encrypted_storage_set_failure (fun _ _ => none) true [] "k" "v"
    (.mk ErrSecurityEncryptionFailed "boom" none)).2.2.1 rfl⟩

/-! Claim C8 — primary → secondary key rotation on auth failures. -/

/-- Claim C8: when a POST fails with 401 (`AUTH_UNAUTHORIZED`) or 403
(`AUTH_INVALID_KEY`), a secondary key is configured and the pipeline is
on the primary key, it swaps the active key to the secondary, records a
rotation timestamp, and retries exactly once with the secondary key;
the outcome of that single retry — failure included — is what the
caller sees; when already on the secondary key no rotation or extra
retry occurs. -/
theorem key_rotation_on_auth_failure
    (doReq : String → Except FlagKitError HTTPResponse) (ks : KeyState)
    (now : Int) :
    (∀ e, doReq ks.currentAPIKey = .error e →
      (e.code = ErrAuthUnauthorized ∨ e.code = ErrAuthInvalidKey) →
      ks.secondaryAPIKey ≠ "" → ks.currentAPIKey ≠ ks.secondaryAPIKey →
      postWithKeyRotation doReq ks now =
        (doReq ks.secondaryAPIKey,
         { ks with currentAPIKey := ks.secondaryAPIKey,
                   keyRotationTimestamp := some now }, 2)) ∧
    (∀ e e2, doReq ks.currentAPIKey = .error e →
      (e.code = ErrAuthUnauthorized ∨ e.code = ErrAuthInvalidKey) →
      ks.secondaryAPIKey ≠ "" → ks.currentAPIKey ≠ ks.secondaryAPIKey →
      doReq ks.secondaryAPIKey = .error e2 →
      (postWithKeyRotation doReq ks now).1 = .error e2) ∧
    (∀ e, doReq ks.currentAPIKey = .error e →
      (e.code = ErrAuthUnauthorized ∨ e.code = ErrAuthInvalidKey) →
      ks.currentAPIKey = ks.secondaryAPIKey →
      postWithKeyRotation doReq ks now = (.error e, ks, 1)) := by
  refine ⟨?_, ?_, ?_⟩
  · intro e hreq hauth hsec hprim
    simp only [postWithKeyRotation, rotateToSecondaryKey, hreq, if_pos hauth,
      if_pos hsec, if_neg (by simpa using hsec : ¬ ks.secondaryAPIKey = ""),
      if_neg hprim]
  · intro e e2 hreq hauth hsec hprim hretry
    simp only [postWithKeyRotation, rotateToSecondaryKey, hreq, if_pos hauth,
      if_pos hsec, if_neg (by simpa using hsec : ¬ ks.secondaryAPIKey = ""),
      if_neg hprim]
    simp [hretry]
  · intro e hreq hauth hsame
    by_cases hsec : ks.secondaryAPIKey = ""
    · simp [postWithKeyRotation, rotateToSecondaryKey, hreq, if_pos hauth, hsec]
    · simp only [postWithKeyRotation, rotateToSecondaryKey, hreq, if_pos hauth,
        if_pos (by simpa using hsec : ks.secondaryAPIKey ≠ ""),
        if_neg (by simpa using hsec : ¬ ks.secondaryAPIKey = ""), if_pos hsame]

/-- Closed witness for `key_rotation_on_auth_failure`: one 401 on the
primary key, success on the secondary. -/
theorem key_rotation_on_auth_failure_witness :
    postWithKeyRotation
      (fun k => if k = "pri" then
          .error (.mk ErrAuthUnauthorized "unauthorized" none)
        else .ok { statusCode := 200, body := "ok" })
      { currentAPIKey := "pri", secondaryAPIKey := "sec",
        keyRotationTimestamp := none } 7 =
      (.ok { statusCode := 200, body := "ok" },
       { currentAPIKey := "sec", secondaryAPIKey := "sec",
         keyRotationTimestamp := some 7 }, 2) := by
  have h := (key_rotation_on_auth_failure
      (fun k => if k = "pri" then
          .error (.mk ErrAuthUnauthorized "unauthorized" none)
        else .ok { statusCode := 200, body := "ok" })
      { currentAPIKey := "pri", secondaryAPIKey := "sec",
        keyRotationTimestamp := none } 7).1
      (.mk ErrAuthUnauthorized "unauthorized" none)
      rfl (Or.inl rfl) (by decide) (by decide)
  rw [h]
  rfl

/-! Claim C7 — bootstrap signature verification. -/

/-- Claim C7: `VerifyBootstrapSignature` accepts when verification is
disabled or the signature is empty; when `max_age > 0` and
`timestamp > 0` it rejects if `now - timestamp` exceeds the max age (in
milliseconds) and rejects if the timestamp is more than 5 minutes
(300000 ms) in the future; otherwise it accepts exactly when the
signature equals `HMAC-SHA256(api_key, timestamp || "." ||
canonical_json(flags))`, rejecting with a signature-invalid error on
mismatch.  The Go comparison is `hmac.Equal`, which decides string
equality in constant time; the timing aspect has no functional
content.  The theorem holds for every hash function `hmacHex`. -/
theorem verify_bootstrap_signature (hmacHex : String → String → String)
    (now : Int) (b : BootstrapConfig) (apiKey : String)
    (cfg : BootstrapVerificationConfig) :
    (cfg.enabled = false →
      VerifyBootstrapSignature hmacHex now b apiKey cfg = (true, none)) ∧
    (b.signature = "" →
      VerifyBootstrapSignature hmacHex now b apiKey cfg = (true, none)) ∧
    (cfg.enabled = true → b.signature ≠ "" → cfg.maxAge > 0 → b.timestamp > 0 →
      now - b.timestamp > cfg.maxAge / 1000000 →
      (VerifyBootstrapSignature hmacHex now b apiKey cfg).1 = false ∧
      (VerifyBootstrapSignature hmacHex now b apiKey cfg).2.isSome = true) ∧
    (cfg.enabled = true → b.signature ≠ "" → cfg.maxAge > 0 → b.timestamp > 0 →
      b.timestamp - now > 300000 →
      (VerifyBootstrapSignature hmacHex now b apiKey cfg).1 = false ∧
      (VerifyBootstrapSignature hmacHex now b apiKey cfg).2.isSome = true) ∧
    (cfg.enabled = true → b.signature ≠ "" →
      ((cfg.maxAge > 0 ∧ b.timestamp > 0) →
        now - b.timestamp ≤ cfg.maxAge / 1000000 ∧ -300000 ≤ now - b.timestamp) →
      (VerifyBootstrapSignature hmacHex now b apiKey cfg = (true, none) ↔
        b.signature = hmacHex
          (toString b.timestamp ++ "." ++ CanonicalizeObject b.flags) apiKey)) := by
  refine ⟨?_, ?_, ?_, ?_, ?_⟩
  · intro h
    simp [VerifyBootstrapSignature, h]
  · intro h
    simp [VerifyBootstrapSignature, h]
  · intro h1 h2 h3 h4 h5
    simp [VerifyBootstrapSignature, h1, h2, h3, h4, h5]
  · intro h1 h2 h3 h4 h5
    have hms : (0 : Int) ≤ cfg.maxAge / 1000000 :=
      Int.ediv_nonneg (le_of_lt h3) (by norm_num)
    have hn1 : ¬(now - b.timestamp > cfg.maxAge / 1000000) := by omega
    have hn2 : now - b.timestamp < -300000 := by omega
    simp [VerifyBootstrapSignature, h1, h2, h3, h4, hn1, hn2]
  · intro h1 h2 htc
    by_cases hcond : cfg.maxAge > 0 ∧ b.timestamp > 0
    · obtain ⟨hle, hge⟩ := htc hcond
      have hn1 : ¬(now - b.timestamp > cfg.maxAge / 1000000) := by omega
      have hn2 : ¬(now - b.timestamp < -300000) := by omega
      simp only [VerifyBootstrapSignature, h1, h2, hcond.1, hcond.2]
      simp [hn1, hn2, h2]
    · simp only [VerifyBootstrapSignature, h1, h2]
      simp [hcond, h2]

/-- Closed witness for `verify_bootstrap_signature`: a matching
signature under a concrete hash function is accepted. -/
theorem verify_bootstrap_signature_witness :
    VerifyBootstrapSignature (fun m k => m ++ "#" ++ k) 0
      { flags := [("a", .vNum 1)], signature := "5.\x7b\"a\":1\x7d#key",
        timestamp := 5 }
      "key" { enabled := true, maxAge := 0, onFailure := "warn" } = (true, none) :=
  ((verify_bootstrap_signature (fun m k => m ++ "#" ++ k) 0
      { flags := [("a", .vNum 1)], signature := "5.\x7b\"a\":1\x7d#key",
        timestamp := 5 }
      "key" { enabled := true, maxAge := 0, onFailure := "warn" }).2.2.2.2
    rfl (by decide) (fun hc => absurd hc.1 (by decide))).mpr rfl

/-! Claim C1 — evaluation never raises. -/

/-- Claim C1: evaluation is a total function producing an
`EvaluationResult` on every input — an empty key yields the caller's
default with reason `DEFAULT`; a fresh cached flag whose `flag_type`
disagrees with the requested type yields the default with reason
`ERROR` while the client state (hence the cached entry) is returned
unmodified; a key absent from the cache and the bootstrap map yields
the default with reason `FLAG_NOT_FOUND`; and the typed readers
`GetBooleanValue`/`GetStringValue`/`GetNumberValue` built on `evaluate`
return the caller's default on each of those failure paths.  The state
component of `evaluate` is always the input state: the read path never
writes. -/
theorem evaluate_never_raises (st : ClientState) (now : Int) (key : String)
    (dflt : GoVal) (et : String) :
    (Client.evaluate st now key dflt et).2 = st ∧
    (key = "" → Client.evaluate st now key dflt et =
      (createDefaultResult now key dflt ReasonDefault, st)) ∧
    (∀ f, key ≠ "" → st.cache.get now key = some f → et ≠ "" → f.flagType ≠ et →
      Client.evaluate st now key dflt et =
        (createDefaultResult now key dflt ReasonError, st)) ∧
    (key ≠ "" → lookupKey st.cache.entries key = none →
      lookupKey st.bootstrap key = none →
      Client.evaluate st now key dflt et =
        (createDefaultResult now key dflt ReasonFlagNotFound, st)) ∧
    (∀ b : Bool, key = "" → Client.getBooleanValue st now key b = b) ∧
    (∀ s : String, key = "" → Client.getStringValue st now key s = s) ∧
    (∀ n : Int, key = "" → Client.getNumberValue st now key n = n) ∧
    (∀ (b : Bool) f, key ≠ "" → st.cache.get now key = some f →
      f.flagType ≠ FlagTypeBoolean → Client.getBooleanValue st now key b = b) ∧
    (∀ (s : String) f, key ≠ "" → st.cache.get now key = some f →
      f.flagType ≠ FlagTypeString → Client.getStringValue st now key s = s) ∧
    (∀ (n : Int) f, key ≠ "" → st.cache.get now key = some f →
      f.flagType ≠ FlagTypeNumber → Client.getNumberValue st now key n = n) ∧
    (key ≠ "" → lookupKey st.cache.entries key = none →
      lookupKey st.bootstrap key = none →
      (∀ b : Bool, Client.getBooleanValue st now key b = b) ∧
      (∀ s : String, Client.getStringValue st now key s = s) ∧
      (∀ n : Int, Client.getNumberValue st now key n = n)) := by
  have hstale : lookupKey st.cache.entries key = none →
      st.cache.getStale key = none := by
    intro h
    simp [Cache.getStale, h]
  have hget : lookupKey st.cache.entries key = none →
      st.cache.get now key = none := by
    intro h
    simp [Cache.get, h]
  have hmain : ∀ f, key ≠ "" → st.cache.get now key = some f → et ≠ "" →
      f.flagType ≠ et →
      Client.evaluate st now key dflt et =
        (createDefaultResult now key dflt ReasonError, st) := by
    intro f hk hc he hft
    simp [Client.evaluate, hk, hc, he, hft]
  have hnf : key ≠ "" → lookupKey st.cache.entries key = none →
      lookupKey st.bootstrap key = none →
      Client.evaluate st now key dflt et =
        (createDefaultResult now key dflt ReasonFlagNotFound, st) := by
    intro hk hc hb
    simp [Client.evaluate, hk, hget hc, hstale hc, hb]
  refine ⟨?_, ?_, hmain, hnf, ?_, ?_, ?_, ?_, ?_, ?_, ?_⟩
  · by_cases hk : key = ""
    · simp [Client.evaluate, hk]
    · simp only [Client.evaluate]
      rw [if_neg hk]
      cases hc : st.cache.get now key with
      | some f =>
          by_cases hm : et ≠ "" ∧ f.flagType ≠ et <;> simp [hm]
      | none =>
          cases hs : st.cache.getStale key with
          | some f2 => simp
          | none =>
              cases hb : lookupKey st.bootstrap key with
              | some v => simp
              | none => simp
  · intro hk
    simp [Client.evaluate, hk]
  · intro b hk
    simp [Client.getBooleanValue, Client.evaluate, hk, createDefaultResult,
      EvaluationResult.boolValue]
  · intro s hk
    simp [Client.getStringValue, Client.evaluate, hk, createDefaultResult,
      EvaluationResult.stringValue]
  · intro n hk
    simp [Client.getNumberValue, Client.evaluate, hk, createDefaultResult,
      EvaluationResult.float64Value]
  · intro b f hk hc hft
    have hmain2 : ∀ g, key ≠ "" → st.cache.get now key = some g →
        FlagTypeBoolean ≠ "" → g.flagType ≠ FlagTypeBoolean →
        Client.evaluate st now key (.vBool b) FlagTypeBoolean =
          (createDefaultResult now key (.vBool b) ReasonError, st) := by
      intro g hk2 hc2 he2 hft2
      simp [Client.evaluate, hk2, hc2, he2, hft2]
    rw [Client.getBooleanValue, hmain2 f hk hc (by decide) hft]
    rfl
  · intro s f hk hc hft
    have hmain2 : ∀ g, key ≠ "" → st.cache.get now key = some g →
        FlagTypeString ≠ "" → g.flagType ≠ FlagTypeString →
        Client.evaluate st now key (.vStr s) FlagTypeString =
          (createDefaultResult now key (.vStr s) ReasonError, st) := by
      intro g hk2 hc2 he2 hft2
      simp [Client.evaluate, hk2, hc2, he2, hft2]
    rw [Client.getStringValue, hmain2 f hk hc (by decide) hft]
    rfl
  · intro n f hk hc hft
    have hmain2 : ∀ g, key ≠ "" → st.cache.get now key = some g →
        FlagTypeNumber ≠ "" → g.flagType ≠ FlagTypeNumber →
        Client.evaluate st now key (.vNum n) FlagTypeNumber =
          (createDefaultResult now key (.vNum n) ReasonError, st) := by
      intro g hk2 hc2 he2 hft2
      simp [Client.evaluate, hk2, hc2, he2, hft2]
    rw [Client.getNumberValue, hmain2 f hk hc (by decide) hft]
    rfl
  · intro hk hc hb
    have hnf2 : ∀ d : GoVal, ∀ ty : String,
        Client.evaluate st now key d ty =
          (createDefaultResult now key d ReasonFlagNotFound, st) := by
      intro d ty
      simp [Client.evaluate, hk, hget hc, hstale hc, hb]
    refine ⟨?_, ?_, ?_⟩
    · intro b
      rw [Client.getBooleanValue, hnf2]
      rfl
    · intro s
      rw [Client.getStringValue, hnf2]
      rfl
    · intro n
      rw [Client.getNumberValue, hnf2]
      rfl

/-- Closed witness for `evaluate_never_raises`: the empty key yields
the default with reason DEFAULT on an empty client. -/
theorem evaluate_never_raises_witness :
    Client.evaluate { cache := Cache.new 1 1, bootstrap := [] } 0 ""
      (.vBool true) "boolean" =
      (createDefaultResult 0 "" (.vBool true) ReasonDefault,
       { cache := Cache.new 1 1, bootstrap := [] }) :=
  (evaluate_never_raises { cache := Cache.new 1 1, bootstrap := [] } 0 ""
    (.vBool true) "boolean").2.1 rfl

/-! Claim C3 — circuit breaker state machine. -/

theorem recordFailures_below_threshold (ts : List Int) :
    ∀ cb : CircuitBreaker, cb.state = .circuitClosed →
    cb.failures + (ts.length : Int) < cb.config.failureThreshold →
    ((cb.recordFailures ts).state = .circuitClosed ∧
     (cb.recordFailures ts).failures = cb.failures + (ts.length : Int) ∧
     (cb.recordFailures ts).config = cb.config) := by
  induction ts with
  | nil =>
      intro cb h1 _
      refine ⟨h1, by simp [CircuitBreaker.recordFailures], rfl⟩
  | cons t rest ih =>
      intro cb h1 h2
      have hlen : (((t :: rest).length : Int)) = (rest.length : Int) + 1 := by
        simp
      rw [hlen] at h2
      have hnot : ¬(cb.failures + 1 ≥ cb.config.failureThreshold) := by omega
      have hrf : cb.recordFailure t =
          { cb with lastFailureTime := t, failures := cb.failures + 1 } := by
        simp [CircuitBreaker.recordFailure, h1, hnot]
      have hstep : cb.recordFailures (t :: rest) =
          (cb.recordFailure t).recordFailures rest := rfl
      obtain ⟨ha, hb, hc⟩ := ih
        ({ cb with lastFailureTime := t, failures := cb.failures + 1 })
        (by simpa using h1)
        (by simp only []; show cb.failures + 1 + (rest.length : Int) <
          cb.config.failureThreshold; omega)
      rw [hstep, hrf]
      refine ⟨ha, ?_, by simpa using hc⟩
      rw [hb, hlen]
      simp
      ring

theorem recordFailures_reach_threshold (cb : CircuitBreaker) (ts : List Int)
    (t : Int) (h1 : cb.state = .circuitClosed)
    (hcnt : cb.failures + (ts.length : Int) + 1 = cb.config.failureThreshold) :
    (cb.recordFailures (ts ++ [t])).state = .circuitOpened ∧
    (cb.recordFailures (ts ++ [t])).failures = 0 ∧
    (cb.recordFailures (ts ++ [t])).successes = 0 ∧
    (cb.recordFailures (ts ++ [t])).lastFailureTime = t ∧
    (cb.recordFailures (ts ++ [t])).config = cb.config := by
  have hstep : cb.recordFailures (ts ++ [t]) =
      (cb.recordFailures ts).recordFailure t := by
    simp [CircuitBreaker.recordFailures, List.foldl_append]
  obtain ⟨ha, hb, hc⟩ := recordFailures_below_threshold ts cb h1 (by omega)
  have hyes : (cb.recordFailures ts).config.failureThreshold ≤
      (cb.recordFailures ts).failures + 1 := by
    rw [hb, hc]
    omega
  rw [hc] at hyes
  rw [hstep]
  simp [CircuitBreaker.recordFailure, ha, hyes, CircuitBreaker.transitionTo, hc]

/-- Claim C3: from CLOSED, strictly fewer than `failure_threshold`
consecutive failures leave the breaker CLOSED (`allow` keeps admitting);
exactly `failure_threshold` consecutive failures open it, with both
counters reset, and `allow` refuses while the reset timeout has not
elapsed since the last failure; once it has elapsed, the next `allow`
(for `half_open_max_allowed ≥ 1`) admits and transitions to HALF_OPEN
with counters reset and admissions capped by `half_open_max_allowed`;
in HALF_OPEN, `success_threshold` successes transition to CLOSED and
any failure transitions back to OPEN, counters reset on every
transition and `last_failure_at` refreshed. -/
theorem circuit_breaker_transitions (cfg : CircuitBreakerConfig) :
    (∀ ts : List Int, (ts.length : Int) < cfg.failureThreshold →
      ((CircuitBreaker.new cfg).recordFailures ts).state = .circuitClosed ∧
      ∀ now2 : Int,
        (((CircuitBreaker.new cfg).recordFailures ts).allow now2).1 = true) ∧
    (∀ (ts : List Int) (t : Int), (ts.length : Int) + 1 = cfg.failureThreshold →
      ((CircuitBreaker.new cfg).recordFailures (ts ++ [t])).state = .circuitOpened ∧
      ((CircuitBreaker.new cfg).recordFailures (ts ++ [t])).failures = 0 ∧
      ((CircuitBreaker.new cfg).recordFailures (ts ++ [t])).successes = 0 ∧
      (∀ now2 : Int, now2 - t < cfg.resetTimeout →
        ((CircuitBreaker.new cfg).recordFailures (ts ++ [t])).allow now2 =
          (false, (CircuitBreaker.new cfg).recordFailures (ts ++ [t])))) ∧
    (∀ cb : CircuitBreaker, cb.config = cfg → cb.state = .circuitOpened →
      ∀ now2 : Int, now2 - cb.lastFailureTime ≥ cfg.resetTimeout →
      1 ≤ cfg.halfOpenMaxAllowed →
      (cb.allow now2).1 = true ∧ (cb.allow now2).2.state = .circuitHalfOpen ∧
      (cb.allow now2).2.failures = 0 ∧ (cb.allow now2).2.successes = 0 ∧
      (cb.allow now2).2.halfOpenInProgress = 1 ∧
      (cb.allow now2).2.halfOpenAllowed = cfg.halfOpenMaxAllowed) ∧
    (∀ cb : CircuitBreaker, cb.state = .circuitHalfOpen → ∀ now2 : Int,
      ((cb.allow now2).1 = true ↔ cb.halfOpenInProgress < cb.halfOpenAllowed) ∧
      (cb.halfOpenInProgress ≤ cb.halfOpenAllowed →
        (cb.allow now2).2.halfOpenInProgress ≤ (cb.allow now2).2.halfOpenAllowed)) ∧
    (∀ cb : CircuitBreaker, cb.config = cfg → cb.state = .circuitHalfOpen →
      cb.successes = 0 →
      (∀ n : Nat, (n : Int) < cfg.successThreshold →
        (cb.recordSuccesses n).state = .circuitHalfOpen) ∧
      (∀ n : Nat, 1 ≤ n → (n : Int) = cfg.successThreshold →
        (cb.recordSuccesses n).state = .circuitClosed ∧
        (cb.recordSuccesses n).failures = 0 ∧
        (cb.recordSuccesses n).successes = 0)) ∧
    (∀ cb : CircuitBreaker, cb.state = .circuitHalfOpen → ∀ t2 : Int,
      (cb.recordFailure t2).state = .circuitOpened ∧
      (cb.recordFailure t2).failures = 0 ∧
      (cb.recordFailure t2).successes = 0 ∧
      (cb.recordFailure t2).lastFailureTime = t2) := by
  have hsuccBelow : ∀ n : Nat, ∀ cb : CircuitBreaker,
      cb.state = .circuitHalfOpen →
      cb.successes + (n : Int) < cb.config.successThreshold →
      ((cb.recordSuccesses n).state = .circuitHalfOpen ∧
       (cb.recordSuccesses n).successes = cb.successes + (n : Int) ∧
       (cb.recordSuccesses n).config = cb.config) := by
    intro n
    induction n with
    | zero =>
        intro cb h1 _
        exact ⟨h1, by simp [CircuitBreaker.recordSuccesses], rfl⟩
    | succ m ih =>
        intro cb h1 h2
        obtain ⟨ha, hb, hc⟩ := ih cb h1 (by push_cast at h2 ⊢; omega)
        have hstep : cb.recordSuccesses (m + 1) =
            (cb.recordSuccesses m).recordSuccess := rfl
        have hnot : ¬((cb.recordSuccesses m).successes + 1 ≥
            (cb.recordSuccesses m).config.successThreshold) := by
          rw [hb, hc]
          push_cast at h2 ⊢
          omega
        have hrs : (cb.recordSuccesses m).recordSuccess =
            { cb.recordSuccesses m with
                successes := (cb.recordSuccesses m).successes + 1,
                halfOpenInProgress :=
                  (cb.recordSuccesses m).halfOpenInProgress - 1 } := by
          simp [CircuitBreaker.recordSuccess, ha, hnot]
        rw [hstep, hrs]
        refine ⟨by simpa using ha, ?_, by simpa using hc⟩
        simp
        rw [hb]
        ring
  refine ⟨?_, ?_, ?_, ?_, ?_, ?_⟩
  · intro ts hlen
    obtain ⟨ha, hb, hc⟩ := recordFailures_below_threshold ts (CircuitBreaker.new cfg)
      (by rfl) (by simpa [CircuitBreaker.new] using hlen)
    refine ⟨ha, ?_⟩
    intro now2
    simp [CircuitBreaker.allow, ha]
  · intro ts t hlen
    obtain ⟨ha, hb, hc, hd, he⟩ := recordFailures_reach_threshold
      (CircuitBreaker.new cfg) ts t (by rfl)
      (by simpa [CircuitBreaker.new] using hlen)
    refine ⟨ha, hb, hc, ?_⟩
    intro now2 hto
    have hnotto : ¬(now2 - ((CircuitBreaker.new cfg).recordFailures
        (ts ++ [t])).lastFailureTime ≥ ((CircuitBreaker.new cfg).recordFailures
        (ts ++ [t])).config.resetTimeout) := by
      rw [hd, he]
      simp [CircuitBreaker.new]
      omega
    simp [CircuitBreaker.allow, ha, hnotto]
  · intro cb hcfg hstate now2 hto hmax
    have h0 : (0 : Int) < cfg.halfOpenMaxAllowed := by omega
    simp [CircuitBreaker.allow, hstate, CircuitBreaker.transitionTo,
      CircuitBreaker.halfOpenAdmit, hcfg, hto, h0]
  · intro cb hstate now2
    constructor
    · simp only [CircuitBreaker.allow, hstate, CircuitBreaker.halfOpenAdmit]
      split_ifs with h <;> simp [h]
    · intro hle
      simp only [CircuitBreaker.allow, hstate, CircuitBreaker.halfOpenAdmit]
      split_ifs with h <;> simp <;> omega
  · intro cb hcfg hstate hsucc
    constructor
    · intro n hn
      exact (hsuccBelow n cb hstate (by rw [hsucc, hcfg]; simpa using hn)).1
    · intro n h1n hn
      obtain ⟨m, rfl⟩ : ∃ m, n = m + 1 := ⟨n - 1, by omega⟩
      obtain ⟨ha, hb, hc⟩ := hsuccBelow m cb hstate
        (by rw [hsucc, hcfg]; push_cast at hn ⊢; omega)
      have hstep : cb.recordSuccesses (m + 1) =
          (cb.recordSuccesses m).recordSuccess := rfl
      have hyes : (cb.recordSuccesses m).successes + 1 ≥
          (cb.recordSuccesses m).config.successThreshold := by
        rw [hb, hc, hsucc, hcfg]
        push_cast at hn ⊢
        omega
      rw [hstep]
      simp [CircuitBreaker.recordSuccess, ha, hyes, CircuitBreaker.transitionTo]
  · intro cb hstate t2
    simp [CircuitBreaker.recordFailure, hstate, CircuitBreaker.transitionTo]

/-- Closed witness for `circuit_breaker_transitions`: with threshold 2,
the failures at times 5 and 9 open the breaker. -/
theorem circuit_breaker_transitions_witness :
    ((CircuitBreaker.new
        { failureThreshold := 2, successThreshold := 1, resetTimeout := 50,
          halfOpenMaxAllowed := 1 }).recordFailures ([5] ++ [9])).state =
      .circuitOpened :=
  ((circuit_breaker_transitions
      { failureThreshold := 2, successThreshold := 1, resetTimeout := 50,
        halfOpenMaxAllowed := 1 }).2.1 [5] 9 (by decide)).1

/-! Claim C4 — retry loop and error classification. -/

theorem requestLoop_attempts_le (tr : Nat → Except FlagKitError HTTPResponse)
    (now : Int) : ∀ (remaining attempt : Nat) (cb : CircuitBreaker)
    (lastErr : Option FlagKitError),
    (requestLoop tr now attempt remaining cb lastErr).attemptsUsed ≤
      attempt - 1 + remaining := by
  intro remaining
  induction remaining with
  | zero =>
      intro attempt cb lastErr
      simp [requestLoop]
  | succ r ih =>
      intro attempt cb lastErr
      cases htr : tr attempt with
      | ok resp =>
          simp [requestLoop, htr]
          omega
      | error e =>
          simp only [requestLoop, htr]
          split_ifs with hr
          · exact le_trans (ih (attempt + 1) cb (some e)) (by omega)
          · simp
            omega

theorem requestLoop_only_retryable (tr : Nat → Except FlagKitError HTTPResponse)
    (now : Int) : ∀ (remaining attempt : Nat) (cb : CircuitBreaker)
    (lastErr : Option FlagKitError) (i : Nat), attempt ≤ i →
    i < (requestLoop tr now attempt remaining cb lastErr).attemptsUsed →
    ∃ e, tr i = .error e ∧ isRetryable e = true := by
  intro remaining
  induction remaining with
  | zero =>
      intro attempt cb lastErr i hai hlt
      simp [requestLoop] at hlt
      omega
  | succ r ih =>
      intro attempt cb lastErr i hai hlt
      cases htr : tr attempt with
      | ok resp =>
          simp [requestLoop, htr] at hlt
          omega
      | error e =>
          simp only [requestLoop, htr] at hlt
          split_ifs at hlt with hr
          · by_cases hieq : i = attempt
            · exact ⟨e, hieq ▸ htr, hr⟩
            · exact ih (attempt + 1) cb (some e) i (by omega) hlt
          · simp at hlt
            omega

theorem requestLoop_step_retry (tr : Nat → Except FlagKitError HTTPResponse)
    (now : Int) (attempt r : Nat) (cb : CircuitBreaker)
    (lastErr : Option FlagKitError) (e : FlagKitError)
    (htr : tr attempt = .error e) (hr : isRetryable e = true) :
    requestLoop tr now attempt (r + 1) cb lastErr =
      requestLoop tr now (attempt + 1) r cb (some e) := by
  have h0 : requestLoop tr now attempt (r + 1) cb lastErr =
      (match tr attempt with
       | .ok resp => { result := .ok resp, breaker := cb.recordSuccess,
                       attemptsUsed := attempt }
       | .error e2 =>
           if isRetryable e2 then requestLoop tr now (attempt + 1) r cb (some e2)
           else { result := .error e2, breaker := cb.recordFailure now,
                  attemptsUsed := attempt }) := rfl
  rw [h0, htr]
  simp [hr]

theorem requestLoop_exhaustion (tr : Nat → Except FlagKitError HTTPResponse)
    (now : Int) : ∀ (r attempt : Nat) (cb : CircuitBreaker)
    (lastErr : Option FlagKitError) (eL : FlagKitError),
    (∀ i, ∃ e, tr i = .error e ∧ isRetryable e = true) →
    tr (attempt + r) = .error eL →
    requestLoop tr now attempt (r + 1) cb lastErr =
      { result := .error (.mk ErrNetworkRetryLimit "max retries exceeded" (some eL)),
        breaker := cb.recordFailure now, attemptsUsed := attempt + r } := by
  intro r
  induction r with
  | zero =>
      intro attempt cb lastErr eL hall hfail
      simp only [Nat.add_zero] at hfail
      obtain ⟨e, he, hr⟩ := hall attempt
      have heq : e = eL := by
        rw [he] at hfail
        injection hfail
      subst heq
      rw [requestLoop_step_retry tr now attempt 0 cb lastErr e he hr]
      simp [requestLoop]
  | succ r ih =>
      intro attempt cb lastErr eL hall hfail
      obtain ⟨e, he, hr⟩ := hall attempt
      rw [requestLoop_step_retry tr now attempt (r + 1) cb lastErr e he hr]
      rw [ih (attempt + 1) cb (some e) eL hall
        (by rw [show attempt + 1 + r = attempt + (r + 1) from by omega]
            exact hfail)]
      simp
      omega

/-- Claim C4 counterexample: the claim's recoverable set contains
HTTP 429 and excludes generic 4xx; the code does the opposite — 429
maps to `NETWORK_RETRY_LIMIT`, which `isRetryable` rejects, so a 429 is
surfaced after a single attempt even when attempts remain; a generic
400 maps to `NETWORK_ERROR`, which is retried to exhaustion. -/
theorem request_retry_counterexample :
    isRetryable (handleErrorResponse 429 "too many requests") = false ∧
    isRetryable (handleErrorResponse 400 "bad request") = true ∧
    (request (fun i => if i = 1 then
        .error (handleErrorResponse 429 "too many requests")
      else .ok { statusCode := 200, body := "ok" }) 0 2
      (CircuitBreaker.new
        { failureThreshold := 5, successThreshold := 2, resetTimeout := 1000,
          halfOpenMaxAllowed := 1 })).attemptsUsed = 1 ∧
    (request (fun i => if i = 1 then
        .error (handleErrorResponse 429 "too many requests")
      else .ok { statusCode := 200, body := "ok" }) 0 2
      (CircuitBreaker.new
        { failureThreshold := 5, successThreshold := 2, resetTimeout := 1000,
          halfOpenMaxAllowed := 1 })).result =
      .error (.mk ErrNetworkRetryLimit "too many requests" none) ∧
    (request (fun _ => .error (handleErrorResponse 400 "bad request")) 0 3
      (CircuitBreaker.new
        { failureThreshold := 5, successThreshold := 2, resetTimeout := 1000,
          halfOpenMaxAllowed := 1 })).attemptsUsed = 3 ∧
    (request (fun _ => .error (handleErrorResponse 400 "bad request")) 0 3
      (CircuitBreaker.new
        { failureThreshold := 5, successThreshold := 2, resetTimeout := 1000,
          halfOpenMaxAllowed := 1 })).result =
      .error (.mk ErrNetworkRetryLimit "max retries exceeded"
        (some (.mk ErrNetworkError "HTTP 400: bad request" none))) :=
  ⟨rfl, rfl, rfl, rfl, rfl, rfl⟩

/-- Claim C4 (amended): the retry loop makes at most `max_attempts`
transport attempts and retries exactly the errors whose code is
`NETWORK_ERROR` or `NETWORK_TIMEOUT` — by the status mapping these are
HTTP 5xx, transport I/O failures, and 4xx statuses other than
401/403/404/429; it stops immediately and surfaces the error on
401 (unauthorized), 403 (invalid key), 404 (flag not found) and — in
contradiction with the spec table — 429 (retry limit); a circuit-open
condition short-circuits before any attempt and is never itself
retried; when every attempt fails with a retryable error the loop
records one breaker failure and surfaces a `NETWORK_RETRY_LIMIT` error
wrapping the last cause. -/
theorem request_retry_classification (tr : Nat → Except FlagKitError HTTPResponse)
    (now : Int) (maxAttempts : Nat) (cb : CircuitBreaker) :
    (request tr now maxAttempts cb).attemptsUsed ≤ maxAttempts ∧
    (∀ i, 1 ≤ i → i < (request tr now maxAttempts cb).attemptsUsed →
      ∃ e, tr i = .error e ∧ isRetryable e = true) ∧
    (∀ (s : Int) (b : String), isRetryable (handleErrorResponse s b) = true ↔
      (s ≠ 401 ∧ s ≠ 403 ∧ s ≠ 404 ∧ s ≠ 429)) ∧
    ((cb.allow now).1 = false →
      (request tr now maxAttempts cb).result =
        .error (.mk ErrCircuitOpen "circuit breaker is open" none) ∧
      (request tr now maxAttempts cb).attemptsUsed = 0) ∧
    (∀ e, (cb.allow now).1 = true → 1 ≤ maxAttempts → tr 1 = .error e →
      isRetryable e = false →
      (request tr now maxAttempts cb).result = .error e ∧
      (request tr now maxAttempts cb).attemptsUsed = 1 ∧
      (request tr now maxAttempts cb).breaker =
        ((cb.allow now).2).recordFailure now) ∧
    (∀ eL, (cb.allow now).1 = true → 1 ≤ maxAttempts →
      (∀ i, ∃ e, tr i = .error e ∧ isRetryable e = true) →
      tr maxAttempts = .error eL →
      (request tr now maxAttempts cb).result =
        .error (.mk ErrNetworkRetryLimit "max retries exceeded" (some eL)) ∧
      (request tr now maxAttempts cb).attemptsUsed = maxAttempts ∧
      (request tr now maxAttempts cb).breaker =
        ((cb.allow now).2).recordFailure now) := by
  rcases hal : cb.allow now with ⟨allowed, cb1⟩
  refine ⟨?_, ?_, ?_, ?_, ?_, ?_⟩
  · cases allowed with
    | false => simp [request, hal]
    | true =>
        simp only [request, hal]
        exact le_trans (requestLoop_attempts_le tr now maxAttempts 1 cb1 none)
          (by omega)
  · intro i h1 hlt
    cases allowed with
    | false => simp [request, hal] at hlt
    | true =>
        simp only [request, hal] at hlt
        exact requestLoop_only_retryable tr now maxAttempts 1 cb1 none i h1 hlt
  · intro s b
    by_cases h1 : s = 401
    · simp [handleErrorResponse, isRetryable, FlagKitError.code, h1,
        ErrAuthUnauthorized, ErrNetworkError, ErrNetworkTimeout]
    · by_cases h2 : s = 403
      · simp [handleErrorResponse, isRetryable, FlagKitError.code, h1, h2,
          ErrAuthInvalidKey, ErrNetworkError, ErrNetworkTimeout]
      · by_cases h3 : s = 404
        · simp [handleErrorResponse, isRetryable, FlagKitError.code, h1, h2, h3,
            ErrEvalFlagNotFound, ErrNetworkError, ErrNetworkTimeout]
        · by_cases h4 : s = 429
          · simp [handleErrorResponse, isRetryable, FlagKitError.code, h1, h2,
              h3, h4, ErrNetworkRetryLimit, ErrNetworkError, ErrNetworkTimeout]
          · by_cases h5 : s = 503 ∨ s = 502 ∨ s = 504
            · simp [handleErrorResponse, isRetryable, FlagKitError.code, h1, h2,
                h3, h4, h5, ErrNetworkError]
            · simp [handleErrorResponse, isRetryable, FlagKitError.code, h1, h2,
                h3, h4, h5, ErrNetworkError]
  · intro hfalse
    simp at hfalse
    subst hfalse
    simp [request, hal]
  · intro e htrue hmax htr hnr
    simp at htrue
    subst htrue
    obtain ⟨m, rfl⟩ : ∃ m, maxAttempts = m + 1 := ⟨maxAttempts - 1, by omega⟩
    simp only [request, hal]
    simp only [requestLoop, htr, hnr]
    simp [hal]
  · intro eL htrue hmax hall htr
    simp at htrue
    subst htrue
    obtain ⟨m, rfl⟩ : ∃ m, maxAttempts = m + 1 := ⟨maxAttempts - 1, by omega⟩
    simp only [request, hal]
    rw [requestLoop_exhaustion tr now m 1 cb1 none eL hall
      (by rw [← htr]; ring_nf)]
    simp [hal]
    omega

/-- Closed witness for `request_retry_classification`: 500 maps to a
retryable network error. -/
theorem request_retry_classification_witness :
    isRetryable (handleErrorResponse 500 "oops") = true ↔
      ((500 : Int) ≠ 401 ∧ (500 : Int) ≠ 403 ∧ (500 : Int) ≠ 404 ∧
       (500 : Int) ≠ 429) :=
  (request_retry_classification (fun _ => .ok { statusCode := 200, body := "" })
    0 1 (CircuitBreaker.new
      { failureThreshold := 5, successThreshold := 2, resetTimeout := 1000,
        halfOpenMaxAllowed := 1 })).2.2.1 500 "oops"

/-! Claim C2 — WAL replay and recovery. -/

theorem lastWrite_append_singleton (ls : List PersistedEvent)
    (l : PersistedEvent) (id : String) :
    lastWrite (ls ++ [l]) id = if l.id = id then some l else lastWrite ls id := by
  simp only [lastWrite, List.filter_append]
  by_cases hl : l.id = id
  · simp [hl, List.getLast?_concat]
  · simp [hl]

theorem lookup_replay (lines : List PersistedEvent) (id : String) (hid : id ≠ "") :
    lookupKey (replayLines lines) id = lastWrite lines id := by
  induction lines using List.reverseRecOn with
  | nil => simp [replayLines, lastWrite, lookupKey]
  | append_singleton ls l ih =>
      have hstep : replayLines (ls ++ [l]) = readLine (replayLines ls) l := by
        simp [replayLines, List.foldl_append]
      rw [hstep, lastWrite_append_singleton]
      by_cases hl : l.id = id
      · have hne : l.id ≠ "" := by rw [hl]; exact hid
        simp only [readLine, if_pos hne]
        rw [lookupKey_insertKey]
        simp [hl]
      · by_cases hl2 : l.id = ""
        · rw [if_neg hl]
          simp only [readLine, hl2]
          simp
          exact ih
        · rw [if_neg hl]
          simp only [readLine, if_pos (hl2 : l.id ≠ "")]
          rw [lookupKey_insertKey, if_neg hl]
          exact ih

theorem foldl_readLine_key_inv (lines : List PersistedEvent) :
    ∀ m : List (String × PersistedEvent),
    (∀ kv ∈ m, kv.1 = kv.2.id ∧ kv.2.id ≠ "") →
    ∀ kv ∈ lines.foldl readLine m, kv.1 = kv.2.id ∧ kv.2.id ≠ "" := by
  induction lines with
  | nil =>
      intro m hm kv hkv
      exact hm kv hkv
  | cons l rest ih =>
      intro m hm kv hkv
      refine ih (readLine m l) ?_ kv hkv
      intro kv2 hkv2
      by_cases hl : l.id = ""
      · rw [readLine, if_neg (by simp [hl])] at hkv2
        exact hm kv2 hkv2
      · rw [readLine, if_pos (hl : l.id ≠ "")] at hkv2
        rcases mem_insertKey hkv2 with h | h
        · exact hm kv2 h
        · rw [h]
          exact ⟨rfl, hl⟩

theorem foldl_readLine_nodup (lines : List PersistedEvent) :
    ∀ m : List (String × PersistedEvent), NodupKeys m →
    NodupKeys (lines.foldl readLine m) := by
  induction lines with
  | nil =>
      intro m hm
      exact hm
  | cons l rest ih =>
      intro m hm
      refine ih (readLine m l) ?_
      by_cases hl : l.id = ""
      · rw [readLine, if_neg (by simp [hl])]
        exact hm
      · rw [readLine, if_pos (hl : l.id ≠ "")]
        exact nodupKeys_insertKey l.id l hm

theorem recover_mem_iff (lines : List PersistedEvent) (ev : PersistedEvent) :
    ev ∈ recover lines ↔
    ∃ kv, kv ∈ replayLines lines ∧
      (kv.2.status = eventStatusPending ∨ kv.2.status = eventStatusSending) ∧
      ev = { kv.2 with status := eventStatusPending } := by
  simp only [recover, List.mem_filterMap]
  constructor
  · rintro ⟨kv, hkv, hf⟩
    split_ifs at hf with hcond
    injection hf with hf2
    exact ⟨kv, hkv, hcond, hf2.symm⟩
  · rintro ⟨kv, hkv, hcond, rfl⟩
    exact ⟨kv, hkv, by rw [if_pos hcond]⟩

/-- Claim C2 counterexample: after the records
`event e1 PENDING`, `update e1 → SENT`, `update e1 → PENDING`,
the claim demands that the post-terminal update be ignored — an id
never leaves SENT — so `recover()` would return nothing
(`recoverSticky`, the claim's semantics, returns `[]`); the code's
`recover()` lets the last record win and returns `e1` as PENDING. -/
theorem recover_terminal_counterexample :
    (recover
      [{ id := "e1", eventType := "click", data := [], context := [],
         timestamp := 5, status := "pending", sentAt := 0 },
       { id := "e1", eventType := "", data := [], context := [],
         timestamp := 0, status := "sent", sentAt := 9 },
       { id := "e1", eventType := "", data := [], context := [],
         timestamp := 0, status := "pending", sentAt := 0 }]).map
        (fun e => (e.id, e.status)) = [("e1", "pending")] ∧
    recoverSticky
      [{ id := "e1", eventType := "click", data := [], context := [],
         timestamp := 5, status := "pending", sentAt := 0 },
       { id := "e1", eventType := "", data := [], context := [],
         timestamp := 0, status := "sent", sentAt := 9 },
       { id := "e1", eventType := "", data := [], context := [],
         timestamp := 0, status := "pending", sentAt := 0 }] = [] :=
  ⟨rfl, rfl⟩

/-- Claim C2 (amended): for every replayed record sequence, `recover()`
returns exactly the ids whose LAST record carries status PENDING or
SENDING — the last record always wins, so a record written after a SENT
or FAILED record is not ignored and can resurrect the id; every
returned event has status PENDING (SENDING is promoted), it is the last
record for its id with only the status field rewritten, and an id whose
last record is SENT or FAILED is never returned. -/
theorem recover_pending_semantics (lines : List PersistedEvent) (id : String)
    (hid : id ≠ "") :
    ((∃ ev, ev ∈ recover lines ∧ ev.id = id) ↔
      (∃ l, lastWrite lines id = some l ∧
        (l.status = eventStatusPending ∨ l.status = eventStatusSending))) ∧
    (∀ ev, ev ∈ recover lines → ev.status = eventStatusPending) ∧
    (∀ l, lastWrite lines id = some l →
      (l.status = eventStatusSent ∨ l.status = eventStatusFailed) →
      ∀ ev, ev ∈ recover lines → ev.id ≠ id) ∧
    (∀ ev, ev ∈ recover lines → ev.id = id →
      ∃ l, lastWrite lines id = some l ∧
        ev = { l with status := eventStatusPending }) := by
  have hinv := foldl_readLine_key_inv lines [] (by intro kv hkv; cases hkv)
  have hnd := foldl_readLine_nodup lines [] (by trivial)
  have hfwd : ∀ ev, ev ∈ recover lines → ev.id = id →
      ∃ l, lastWrite lines id = some l ∧
        (l.status = eventStatusPending ∨ l.status = eventStatusSending) ∧
        ev = { l with status := eventStatusPending } := by
    intro ev hev hevid
    obtain ⟨kv, hkv, hcond, hevdef⟩ := (recover_mem_iff lines ev).mp hev
    obtain ⟨hk1, _⟩ := hinv kv hkv
    have hkvid : kv.1 = id := by
      rw [hk1]
      rw [hevdef] at hevid
      exact hevid
    have hlook : lookupKey (replayLines lines) kv.1 = some kv.2 := by
      obtain ⟨k0, v0⟩ := kv
      exact lookupKey_eq_some_of_mem hnd hkv
    rw [hkvid] at hlook
    rw [lookup_replay lines id hid] at hlook
    exact ⟨kv.2, hlook, hcond, hevdef⟩
  refine ⟨?_, ?_, ?_, fun ev hev hevid => by
    obtain ⟨l, h1, _, h3⟩ := hfwd ev hev hevid
    exact ⟨l, h1, h3⟩⟩
  · constructor
    · rintro ⟨ev, hev, hevid⟩
      obtain ⟨l, h1, h2, _⟩ := hfwd ev hev hevid
      exact ⟨l, h1, h2⟩
    · rintro ⟨l, hlast, hcond⟩
      have hlook : lookupKey (replayLines lines) id = some l := by
        rw [lookup_replay lines id hid]
        exact hlast
      have hmem : (id, l) ∈ replayLines lines := mem_of_lookupKey_some hlook
      have hlid : l.id = id := ((hinv (id, l) hmem).1).symm
      refine ⟨{ l with status := eventStatusPending }, ?_, by simpa using hlid⟩
      exact (recover_mem_iff lines _).mpr ⟨(id, l), hmem, hcond, rfl⟩
  · intro ev hev
    obtain ⟨kv, _, _, hevdef⟩ := (recover_mem_iff lines ev).mp hev
    rw [hevdef]
  · intro l hlast hterm ev hev hevid
    obtain ⟨l2, hlast2, hcond2, _⟩ := hfwd ev hev hevid
    rw [hlast] at hlast2
    injection hlast2 with hl2
    subst hl2
    rcases hterm with ht | ht <;> rcases hcond2 with hc | hc <;>
      rw [ht] at hc <;> simp [eventStatusPending, eventStatusSending,
        eventStatusSent, eventStatusFailed] at hc

/-- Closed witness for `recover_pending_semantics`: an id whose last
record is a SENDING update is recovered as PENDING. -/
theorem recover_pending_semantics_witness :
    ("e1" : String) ≠ "" ∧
    (∃ ev, ev ∈ recover
      [{ id := "e1", eventType := "click", data := [], context := [],
         timestamp := 5, status := "pending", sentAt := 0 },
       { id := "e1", eventType := "", data := [], context := [],
         timestamp := 0, status := "sending", sentAt := 0 }] ∧ ev.id = "e1") := by
  refine ⟨by decide, ?_⟩
  exact ((recover_pending_semantics
      [{ id := "e1", eventType := "click", data := [], context := [],
         timestamp := 5, status := "pending", sentAt := 0 },
       { id := "e1", eventType := "", data := [], context := [],
         timestamp := 0, status := "sending", sentAt := 0 }] "e1"
      (by decide)).1).mpr
    ⟨{ id := "e1", eventType := "", data := [], context := [],
       timestamp := 0, status := "sending", sentAt := 0 }, rfl, Or.inr rfl⟩
/-! Claim C5 — cache capacity and eviction. -/

theorem scanOldest_some (l : List (String × CacheEntry)) :
    ∀ p : String × Int, ∃ q, scanOldest (some p) l = some q := by
  induction l with
  | nil =>
      intro p
      exact ⟨p, rfl⟩
  | cons kv rest ih =>
      intro p
      obtain ⟨ok, ot⟩ := p
      by_cases hlt : kv.2.fetchedAt < ot
      · simpa [scanOldest, hlt] using ih (kv.1, kv.2.fetchedAt)
      · simpa [scanOldest, hlt] using ih (ok, ot)

theorem scanOldest_mem (l : List (String × CacheEntry)) :
    ∀ (acc : Option (String × Int)) (p : String × Int),
    scanOldest acc l = some p →
    (∃ e, (p.1, e) ∈ l ∧ e.fetchedAt = p.2) ∨ acc = some p := by
  induction l with
  | nil =>
      intro acc p h
      right
      cases acc <;> exact h
  | cons kv rest ih =>
      intro acc p h
      cases acc with
      | none =>
          rw [show scanOldest none (kv :: rest) =
            scanOldest (some (kv.1, kv.2.fetchedAt)) rest from rfl] at h
          rcases ih _ p h with ⟨e, hm, he⟩ | hacc
          · exact Or.inl ⟨e, List.mem_cons_of_mem kv hm, he⟩
          · injection hacc with hacc2
            left
            refine ⟨kv.2, ?_, by rw [← hacc2]⟩
            rw [← hacc2]
            exact List.mem_cons_self kv rest
      | some q =>
          obtain ⟨ok, ot⟩ := q
          by_cases hlt : kv.2.fetchedAt < ot
          · rw [show scanOldest (some (ok, ot)) (kv :: rest) =
              scanOldest (some (kv.1, kv.2.fetchedAt)) rest from by
                simp [scanOldest, hlt]] at h
            rcases ih _ p h with ⟨e, hm, he⟩ | hacc
            · exact Or.inl ⟨e, List.mem_cons_of_mem kv hm, he⟩
            · injection hacc with hacc2
              left
              refine ⟨kv.2, ?_, by rw [← hacc2]⟩
              rw [← hacc2]
              exact List.mem_cons_self kv rest
          · rw [show scanOldest (some (ok, ot)) (kv :: rest) =
              scanOldest (some (ok, ot)) rest from by simp [scanOldest, hlt]] at h
            rcases ih _ p h with ⟨e, hm, he⟩ | hacc
            · exact Or.inl ⟨e, List.mem_cons_of_mem kv hm, he⟩
            · exact Or.inr hacc

theorem scanOldest_min (l : List (String × CacheEntry)) :
    ∀ (acc : Option (String × Int)) (p : String × Int),
    scanOldest acc l = some p →
    (∀ kv ∈ l, p.2 ≤ kv.2.fetchedAt) ∧ (∀ q, acc = some q → p.2 ≤ q.2) := by
  induction l with
  | nil =>
      intro acc p h
      refine ⟨by simp, ?_⟩
      intro q hq
      rw [hq] at h
      have h3 : (some q : Option (String × Int)) = some p := h
      injection h3 with h2
      rw [← h2]
  | cons kv rest ih =>
      intro acc p h
      cases acc with
      | none =>
          rw [show scanOldest none (kv :: rest) =
            scanOldest (some (kv.1, kv.2.fetchedAt)) rest from rfl] at h
          obtain ⟨hrest, hacc⟩ := ih _ p h
          have hhead : p.2 ≤ kv.2.fetchedAt := hacc (kv.1, kv.2.fetchedAt) rfl
          refine ⟨?_, by intro q hq; cases hq⟩
          intro kv2 hm
          rcases List.mem_cons.mp hm with h2 | h2
          · rw [h2]
            exact hhead
          · exact hrest kv2 h2
      | some q0 =>
          obtain ⟨ok, ot⟩ := q0
          by_cases hlt : kv.2.fetchedAt < ot
          · rw [show scanOldest (some (ok, ot)) (kv :: rest) =
              scanOldest (some (kv.1, kv.2.fetchedAt)) rest from by
                simp [scanOldest, hlt]] at h
            obtain ⟨hrest, hacc⟩ := ih _ p h
            have hhead : p.2 ≤ kv.2.fetchedAt := hacc (kv.1, kv.2.fetchedAt) rfl
            refine ⟨?_, ?_⟩
            · intro kv2 hm
              rcases List.mem_cons.mp hm with h2 | h2
              · rw [h2]
                exact hhead
              · exact hrest kv2 h2
            · intro q hq
              injection hq with hq2
              rw [← hq2]
              exact le_trans hhead (le_of_lt hlt)
          · rw [show scanOldest (some (ok, ot)) (kv :: rest) =
              scanOldest (some (ok, ot)) rest from by simp [scanOldest, hlt]] at h
            obtain ⟨hrest, hacc⟩ := ih _ p h
            have hot : p.2 ≤ ot := hacc (ok, ot) rfl
            refine ⟨?_, ?_⟩
            · intro kv2 hm
              rcases List.mem_cons.mp hm with h2 | h2
              · rw [h2]
                exact le_trans hot (not_lt.mp hlt)
              · exact hrest kv2 h2
            · intro q hq
              injection hq with hq2
              rw [← hq2]
              exact hot

theorem removeKey_length_le {α : Type} (l : List (String × α)) (k : String) :
    (removeKey l k).length ≤ l.length := by
  induction l with
  | nil => simp [removeKey]
  | cons kv rest ih =>
      by_cases h : kv.1 = k
      · simp [removeKey, h]
      · simp [removeKey, h]
        omega

theorem evictOldest_maxSize (c : Cache) : (c.evictOldest).maxSize = c.maxSize := by
  unfold Cache.evictOldest
  cases scanOldest none c.entries with
  | none => rfl
  | some p =>
      obtain ⟨k, t⟩ := p
      by_cases h : k ≠ "" <;> simp [h]

theorem cache_set_step (c : Cache) (now : Int) (key : String) (flag : FlagState)
    (ttl? : Option Int) (hkey : key ≠ "")
    (hk : ∀ kv ∈ c.entries, kv.1 ≠ "") (hnd : NodupKeys c.entries)
    (hlen : c.entries.length ≤ c.maxSize) (hmax : 1 ≤ c.maxSize) :
    (∀ kv ∈ (c.set now key flag ttl?).entries, kv.1 ≠ "") ∧
    NodupKeys (c.set now key flag ttl?).entries ∧
    (c.set now key flag ttl?).entries.length ≤ c.maxSize := by
  cases hlook : lookupKey c.entries key with
  | some e0 =>
      have hcond : ¬(c.entries.length ≥ c.maxSize ∧
          (lookupKey c.entries key).isNone) := by
        simp [hlook]
      simp only [Cache.set, if_neg hcond]
      refine ⟨?_, nodupKeys_insertKey key _ hnd, ?_⟩
      · intro kv hkv
        rcases mem_insertKey hkv with h | h
        · exact hk kv h
        · rw [h]
          exact hkey
      · rw [insertKey_length]
        simp [hlook]
        exact hlen
  | none =>
      by_cases hcap : c.entries.length ≥ c.maxSize
      · have hcond : c.entries.length ≥ c.maxSize ∧
            (lookupKey c.entries key).isNone := by simp [hlook, hcap]
        have hne : c.entries ≠ [] := by
          intro hnil
          rw [hnil] at hcap
          simp at hcap
          omega
        obtain ⟨kv0, rest0, hsplit⟩ := List.exists_cons_of_ne_nil hne
        have hscan : ∃ q, scanOldest none c.entries = some q := by
          rw [hsplit]
          rw [show scanOldest none (kv0 :: rest0) =
            scanOldest (some (kv0.1, kv0.2.fetchedAt)) rest0 from rfl]
          exact scanOldest_some rest0 (kv0.1, kv0.2.fetchedAt)
        obtain ⟨q, hq⟩ := hscan
        obtain ⟨e1, hmem, _⟩ | habs := scanOldest_mem c.entries none q hq
        swap
        · cases habs
        have hq1 : q.1 ≠ "" := hk (q.1, e1) hmem
        have hevict : c.evictOldest =
            { c with entries := removeKey c.entries q.1 } := by
          unfold Cache.evictOldest
          rw [hq]
          simp [hq1]
        have hkeyne : key ≠ q.1 := by
          intro heq
          have := lookupKey_isSome_of_mem hmem
          rw [← heq, hlook] at this
          simp at this
        have hlookrm : lookupKey (removeKey c.entries q.1) key = none := by
          rw [lookupKey_removeKey_ne _ _ _ hkeyne]
          exact hlook
        have hrmlen : (removeKey c.entries q.1).length + 1 = c.entries.length :=
          removeKey_length_of_lookup c.entries q.1
            (lookupKey_isSome_of_mem hmem)
        simp only [Cache.set, if_pos hcond, hevict]
        refine ⟨?_, ?_, ?_⟩
        · intro kv hkv
          rcases mem_insertKey hkv with h | h
          · exact hk kv (mem_removeKey h)
          · rw [h]
            exact hkey
        · exact nodupKeys_insertKey key _ (nodupKeys_removeKey q.1 hnd)
        · rw [insertKey_length]
          simp [hlookrm]
          omega
      · have hcond : ¬(c.entries.length ≥ c.maxSize ∧
            (lookupKey c.entries key).isNone) := by
          intro hc
          exact hcap hc.1
        simp only [Cache.set, if_neg hcond]
        refine ⟨?_, nodupKeys_insertKey key _ hnd, ?_⟩
        · intro kv hkv
          rcases mem_insertKey hkv with h | h
          · exact hk kv h
          · rw [h]
            exact hkey
        · rw [insertKey_length]
          simp [hlook]
          omega

theorem set_maxSize (c : Cache) (now : Int) (key : String) (flag : FlagState)
    (ttl? : Option Int) : (c.set now key flag ttl?).maxSize = c.maxSize := by
  simp only [Cache.set]
  split_ifs <;> simp [evictOldest_maxSize]

/-- Claim C5 counterexample: with `max_size = 1`, inserting under the
empty-string key and then a fresh key yields size 2 — `evictOldest`'s
guard `oldestKey != ""` skips the eviction when the oldest entry has
the empty key; and a cache constructed with `max_size = 0` grows to
size 1 on its first insert, since there is nothing to evict. -/
theorem cache_capacity_counterexample :
    (((Cache.new 100 1).set 0 "" flagE5 none).set 1 "x" flagX5 none).size = 2 ∧
    ((Cache.new 100 0).set 0 "a" flagX5 none).size = 1 :=
  ⟨rfl, rfl⟩

/-- Claim C5 (amended): for a cache constructed with `max_size = N ≥ 1`
and operated with non-empty keys, `size() ≤ N` holds after every
sequence of set/delete/clear operations; when `set(key, flag)` arrives
with a new key while `len ≥ max_size`, an entry whose `fetched_at` is
minimal over the whole cache is evicted before the insertion (its key
is absent afterwards) and the size does not grow; setting an existing
key replaces it without evicting — size and all other bindings
unchanged.  The unamended claim fails for empty-string keys and for
`max_size = 0` (see the counterexample). -/
theorem cache_capacity (ttl : Int) (n : Nat) (hn : 1 ≤ n) (ops : List CacheOp)
    (hops : ∀ (now : Int) (key : String) (flag : FlagState) (ttl? : Option Int),
      CacheOp.setOp now key flag ttl? ∈ ops → key ≠ "") :
    ((Cache.new ttl n).applyOps ops).size ≤ n ∧
    (∀ (c : Cache) (now : Int) (key : String) (flag : FlagState)
        (ttl? : Option Int),
      key ≠ "" → (∀ kv ∈ c.entries, kv.1 ≠ "") → NodupKeys c.entries →
      1 ≤ c.maxSize →
      ((∀ e0, lookupKey c.entries key = some e0 →
        (c.set now key flag ttl?).size = c.size ∧
        (∀ k2, k2 ≠ key →
          lookupKey (c.set now key flag ttl?).entries k2 =
            lookupKey c.entries k2)) ∧
      (lookupKey c.entries key = none → c.entries.length ≥ c.maxSize →
        ∃ k2 e2, (k2, e2) ∈ c.entries ∧
          (∀ kv ∈ c.entries, e2.fetchedAt ≤ kv.2.fetchedAt) ∧
          lookupKey (c.set now key flag ttl?).entries k2 = none ∧
          (c.set now key flag ttl?).size = c.size))) := by
  constructor
  · have inv : ∀ (ops2 : List CacheOp) (c : Cache),
        (∀ (now : Int) (key : String) (flag : FlagState) (ttl? : Option Int),
          CacheOp.setOp now key flag ttl? ∈ ops2 → key ≠ "") →
        (∀ kv ∈ c.entries, kv.1 ≠ "") → NodupKeys c.entries →
        c.entries.length ≤ c.maxSize → 1 ≤ c.maxSize →
        ((c.applyOps ops2).entries.length ≤ (c.applyOps ops2).maxSize ∧
         (c.applyOps ops2).maxSize = c.maxSize) := by
      intro ops2
      induction ops2 with
      | nil =>
          intro c _ _ _ hlen _
          exact ⟨hlen, rfl⟩
      | cons op rest ih =>
          intro c hops2 hk hnd hlen hmax
          have hstep : c.applyOps (op :: rest) =
              (c.applyOp op).applyOps rest := rfl
          rw [hstep]
          cases op with
          | setOp now key flag ttl? =>
              have happ : c.applyOp (CacheOp.setOp now key flag ttl?) =
                  c.set now key flag ttl? := rfl
              rw [happ]
              have hkey : key ≠ "" :=
                hops2 now key flag ttl? (List.mem_cons_self _ _)
              obtain ⟨h1, h2, h3⟩ :=
                cache_set_step c now key flag ttl? hkey hk hnd hlen hmax
              have hms := set_maxSize c now key flag ttl?
              obtain ⟨ha, hb⟩ := ih (c.set now key flag ttl?)
                (fun now2 key2 flag2 ttl2 hm =>
                  hops2 now2 key2 flag2 ttl2 (List.mem_cons_of_mem _ hm))
                h1 h2 (by rw [hms]; exact h3) (by rw [hms]; exact hmax)
              exact ⟨ha, by rw [hb, hms]⟩
          | deleteOp key =>
              have happ : c.applyOp (CacheOp.deleteOp key) = c.delete key := rfl
              rw [happ]
              obtain ⟨ha, hb⟩ := ih (c.delete key)
                (fun now2 key2 flag2 ttl2 hm =>
                  hops2 now2 key2 flag2 ttl2 (List.mem_cons_of_mem _ hm))
                (fun kv hkv => hk kv (mem_removeKey hkv))
                (nodupKeys_removeKey key hnd)
                (le_trans (removeKey_length_le c.entries key) hlen) hmax
              exact ⟨ha, hb⟩
          | clearOp =>
              have happ : c.applyOp CacheOp.clearOp = c.clear := rfl
              rw [happ]
              obtain ⟨ha, hb⟩ := ih c.clear
                (fun now2 key2 flag2 ttl2 hm =>
                  hops2 now2 key2 flag2 ttl2 (List.mem_cons_of_mem _ hm))
                (by intro kv hkv; cases hkv) (by trivial)
                (by simp [Cache.clear]) hmax
              exact ⟨ha, hb⟩
    obtain ⟨ha, hb⟩ := inv ops (Cache.new ttl n) hops
      (by intro kv hkv; cases hkv) (by trivial) (by simp [Cache.new]) hn
    have hbn : ((Cache.new ttl n).applyOps ops).maxSize = n := hb
    rw [Cache.size]
    rw [hbn] at ha
    exact ha
  · intro c now key flag ttl? hkey hk hnd hmax
    constructor
    · intro e0 hlook
      have hcond : ¬(c.entries.length ≥ c.maxSize ∧
          (lookupKey c.entries key).isNone) := by simp [hlook]
      simp only [Cache.set, if_neg hcond]
      refine ⟨?_, ?_⟩
      · simp only [Cache.size]
        rw [insertKey_length]
        simp [hlook]
      · intro k2 hk2
        rw [lookupKey_insertKey]
        rw [if_neg (fun he => hk2 he.symm)]
    · intro hlook hcap
      have hcond : c.entries.length ≥ c.maxSize ∧
          (lookupKey c.entries key).isNone := by simp [hlook, hcap]
      have hne : c.entries ≠ [] := by
        intro hnil
        rw [hnil] at hcap
        simp at hcap
        omega
      obtain ⟨kv0, rest0, hsplit⟩ := List.exists_cons_of_ne_nil hne
      have hscan : ∃ q, scanOldest none c.entries = some q := by
        rw [hsplit]
        rw [show scanOldest none (kv0 :: rest0) =
          scanOldest (some (kv0.1, kv0.2.fetchedAt)) rest0 from rfl]
        exact scanOldest_some rest0 (kv0.1, kv0.2.fetchedAt)
      obtain ⟨q, hq⟩ := hscan
      obtain ⟨e1, hmem, hfe⟩ | habs := scanOldest_mem c.entries none q hq
      swap
      · cases habs
      have hq1 : q.1 ≠ "" := hk (q.1, e1) hmem
      have hmin : ∀ kv ∈ c.entries, e1.fetchedAt ≤ kv.2.fetchedAt := by
        intro kv hkv
        rw [hfe]
        exact (scanOldest_min c.entries none q hq).1 kv hkv
      have hevict : c.evictOldest =
          { c with entries := removeKey c.entries q.1 } := by
        unfold Cache.evictOldest
        rw [hq]
        simp [hq1]
      have hkeyne : key ≠ q.1 := by
        intro heq
        have := lookupKey_isSome_of_mem hmem
        rw [← heq, hlook] at this
        simp at this
      have hrmlen : (removeKey c.entries q.1).length + 1 = c.entries.length :=
        removeKey_length_of_lookup c.entries q.1 (lookupKey_isSome_of_mem hmem)
      have hlookrm : lookupKey (removeKey c.entries q.1) key = none := by
        rw [lookupKey_removeKey_ne _ _ _ hkeyne]
        exact hlook
      refine ⟨q.1, e1, hmem, hmin, ?_, ?_⟩
      · simp only [Cache.set, if_pos hcond, hevict]
        rw [lookupKey_insertKey]
        rw [if_neg hkeyne]
        exact lookupKey_removeKey_self hnd
      · simp only [Cache.set, if_pos hcond, hevict, Cache.size]
        rw [insertKey_length]
        simp [hlookrm]
        omega

/-- Closed witness for `cache_capacity`: one well-keyed insert into a
fresh capacity-1 cache keeps the size within bound. -/
theorem cache_capacity_witness :
    ((Cache.new 100 1).applyOps [CacheOp.setOp 0 "x" flagX5 none]).size ≤ 1 :=
  (cache_capacity 100 1 (by decide) [CacheOp.setOp 0 "x" flagX5 none]
    (by
      intro now key flag ttl? hm
      simp at hm
      obtain ⟨-, h, -, -⟩ := hm
      rw [h]
      decide)).1

end FlagKit
